import Mathlib

/-!
# liblava: frame scheduler and backend instance

A shallow embedding of `liblava/frame/frame.cpp` (the run loop of `lava::frame`) and of
`liblava/base/instance.cpp` (the Vulkan instance life cycle), followed by the properties
proved about them.

Conventions of the embedding

* A member function that mutates its object takes the object and returns the new one,
  together with the C++ return value when there is one.
* `std::map<id, F>` is an association list kept in ascending key order; `std::vector` is a
  `List`.
* Calls that leave the process (GLFW event pump, `manager.wait_idle()`, the Vulkan loader)
  are recorded in a log carried by the state, so that the order of effects can be stated.
* A registered callback (`std::function`) is a function of what it can reach: the
  application data it captured and the `running` flag. It reports the new application
  data, whether it called `frame::shut_down()`, and its C++ return value. Callbacks that
  change the registries while these are being iterated are outside the embedding.
-/

namespace lava

/-! ## Identifiers -/

/-- The value of a `lava::id`. -/
abbrev id_t := Nat

/-- Modelled from the spec: the identifier allocator `lava::ids` (its source,
`liblava/core/id.hpp`, is not part of the sources at hand). The spec describes it as a
"monotonic counter with free-list reuse": `next_id` is the last value handed out by the
counter, `free_ids` the queue of released identifiers. -/
structure ids where
  next_id : Nat
  free_ids : List id_t
deriving DecidableEq, Repr

namespace ids

/-- Modelled from the spec: `ids::next()`. The oldest released identifier is handed out
again when there is one, otherwise the counter is advanced. -/
def next (s : ids) : id_t × ids :=
  match s.free_ids with
  | [] => (s.next_id + 1, { s with next_id := s.next_id + 1 })
  | x :: rest => (x, { s with free_ids := rest })

/-- Modelled from the spec: `ids::free(id)` puts the identifier at the end of the queue of
released identifiers. -/
def free (s : ids) (k : id_t) : ids :=
  { s with free_ids := s.free_ids ++ [k] }

end ids

/-! ## `std::map` as a key-ordered association list -/

/-- The keys of a map, in iteration order. -/
def map_keys {α : Type} (m : List (id_t × α)) : List id_t := m.map Prod.fst

/-- Model of `std::map::count`. -/
def map_count {α : Type} (m : List (id_t × α)) (k : id_t) : Nat :=
  if k ∈ map_keys m then 1 else 0

/-- Model of `std::map::emplace`: ordered insertion; an existing key keeps its value. -/
def map_emplace {α : Type} (k : id_t) (v : α) : List (id_t × α) → List (id_t × α)
  | [] => [(k, v)]
  | (k', v') :: rest =>
    if k < k' then (k, v) :: (k', v') :: rest
    else if k = k' then (k', v') :: rest
    else (k', v') :: map_emplace k v rest

/-- Model of `std::map::erase(key)`. -/
def map_erase {α : Type} (k : id_t) (m : List (id_t × α)) : List (id_t × α) :=
  m.filter (fun e => decide (e.1 ≠ k))

/-! ## The frame -/

/-- Modelled from the spec: the result codes of `frame::run` declared in `frame.hpp`
(`0`, `error::run_aborted`, `error::still_running`); the spec names them `Ok`,
`RunAborted` and `StillRunning`. -/
inductive result where
  | ok
  | run_aborted
  | still_running
deriving DecidableEq, Repr

/-- An effect that is observable from outside the frame, in the order it happened. -/
inductive event where
  | handle_events
  | run_once (index : Nat)
  | run (key : id_t)
  | wait_idle
  | run_end (key : id_t)
deriving DecidableEq, Repr

/-- What one invocation of a callback did. -/
structure effect (σ : Type) where
  app : σ
  shut_down : Bool
  result : Bool

/-- A steady-state or one-shot callback (`std::function<bool()>`): from the `running`
flag and the captured application data to its effect. -/
abbrev run_func (σ : Type) := Bool → σ → effect σ

/-- A teardown callback (`std::function<void()>`): it has no return value, only the new
application data and whether it called `shut_down()`. -/
abbrev run_end_func (σ : Type) := Bool → σ → σ × Bool

/-- The state of a `lava::frame` that the run loop works on. `start_time` is in
milliseconds and `0` is the value-initialised `ms{}`. `app` is the data captured by the
callbacks, `log` the record of observable effects, `id_state` the global `ids`. -/
structure frame (σ : Type) where
  running : Bool
  start_time : Nat
  run_once_list : List (run_func σ)
  run_map : List (id_t × run_func σ)
  run_end_map : List (id_t × run_end_func σ)
  id_state : ids
  app : σ
  log : List event

namespace frame

variable {σ : Type}

/-- A frame right after construction. -/
def fresh (a : σ) : frame σ :=
  { running := false, start_time := 0, run_once_list := [], run_map := [],
    run_end_map := [], id_state := { next_id := 0, free_ids := [] }, app := a, log := [] }

/-- `frame::shut_down`. -/
def shut_down (f : frame σ) : frame σ × Bool :=
  if !f.running then (f, false)
  else ({ f with running := false }, true)

/-- `frame::add_run`. -/
def add_run (f : frame σ) (func : run_func σ) : frame σ × id_t :=
  let (k, s) := f.id_state.next
  ({ f with id_state := s, run_map := map_emplace k func f.run_map }, k)

/-- `frame::add_run_end`. -/
def add_run_end (f : frame σ) (func : run_end_func σ) : frame σ × id_t :=
  let (k, s) := f.id_state.next
  ({ f with id_state := s, run_end_map := map_emplace k func f.run_end_map }, k)

/-- `frame::remove`. -/
def remove (f : frame σ) (k : id_t) : frame σ × Bool :=
  let (f1, result) :=
    if map_count f.run_map k ≠ 0 then
      ({ f with run_map := map_erase k f.run_map }, true)
    else if map_count f.run_end_map k ≠ 0 then
      ({ f with run_end_map := map_erase k f.run_end_map }, true)
    else (f, false)
  if result then ({ f1 with id_state := f1.id_state.free k }, true)
  else (f1, false)

/-- Invocation of a `std::function<bool()>`: the event is logged, the callback runs on the
current flag and data, and a `shut_down()` it made is applied to the frame. -/
def call (e : event) (func : run_func σ) (f : frame σ) : frame σ × Bool :=
  let r := func f.running f.app
  let f1 := { f with app := r.app, log := f.log ++ [e] }
  ((if r.shut_down then (shut_down f1).1 else f1), r.result)

/-- Invocation of a `std::function<void()>` of the teardown registry. -/
def call_end (e : event) (func : run_end_func σ) (f : frame σ) : frame σ :=
  let r := func f.running f.app
  let f1 := { f with app := r.1, log := f.log ++ [e] }
  if r.2 then (shut_down f1).1 else f1

/-- The loop `for (auto& func : run_once_list) if (!func()) return false;` of `run_step`,
from position `i` on. `false` is the early return. -/
def run_once_loop : List (run_func σ) → Nat → frame σ → frame σ × Bool
  | [], _, f => (f, true)
  | func :: rest, i, f =>
    let (f1, ok) := call (event.run_once i) func f
    if !ok then (f1, false) else run_once_loop rest (i + 1) f1

/-- The loop `for (auto& func : run_map) if (!func.second()) return false;`. -/
def run_map_loop : List (id_t × run_func σ) → frame σ → frame σ × Bool
  | [], f => (f, true)
  | func :: rest, f =>
    let (f1, ok) := call (event.run func.1) func.2 f
    if !ok then (f1, false) else run_map_loop rest f1

/-- `frame::run_step`. -/
def run_step (f : frame σ) : frame σ × Bool :=
  let f0 := { f with log := f.log ++ [event.handle_events] }
  if !f0.run_once_list.isEmpty then
    let (f1, ok) := run_once_loop f0.run_once_list 0 f0
    if !ok then (f1, false)
    else run_map_loop f1.run_map { f1 with run_once_list := [] }
  else run_map_loop f0.run_map f0

/-- The loop `for (auto& func : reverse(run_end_map)) func.second();`, given the entries
in the order they are visited. -/
def run_end_loop : List (id_t × run_end_func σ) → frame σ → frame σ
  | [], f => f
  | func :: rest, f => run_end_loop rest (call_end (event.run_end func.1) func.2 f)

/-- `frame::trigger_run_end`. -/
def trigger_run_end (f : frame σ) : frame σ :=
  run_end_loop f.run_end_map.reverse f

/-- `manager.wait_idle()`: the idle drain, an effect outside the frame. -/
def wait_idle (f : frame σ) : frame σ :=
  { f with log := f.log ++ [event.wait_idle] }

/-- The loop `while (running) { if (!run_step()) break; }` of `run`, for at most `fuel`
steps. The result is `none` when the loop is still going after `fuel` steps; otherwise the
state at loop exit and whether the exit was through the loop condition (`true`) or
through `break` (`false`). -/
def run_loop : Nat → frame σ → Option (frame σ × Bool)
  | 0, f => if f.running then none else some (f, true)
  | fuel + 1, f =>
    if f.running then
      let (f1, ok) := run_step f
      if !ok then some (f1, false) else run_loop fuel f1
    else some (f, true)

/-- The part of `run` after the loop: idle drain, teardown callbacks, result code, and
reset of `start_time`. -/
def run_exit (f : frame σ) : frame σ × result :=
  let f1 := trigger_run_end (wait_idle f)
  if f1.running then ({ f1 with running := false, start_time := 0 }, result.run_aborted)
  else ({ f1 with start_time := 0 }, result.ok)

/-- `frame::run`. `now` is the value of `now()` at entry; `fuel` bounds the number of
loop steps, and `none` means the loop did not exit within that bound. -/
def run (fuel : Nat) (now : Nat) (f : frame σ) : Option (frame σ × result) :=
  if f.running then some (f, result.still_running)
  else
    match run_loop fuel { f with running := true, start_time := now } with
    | none => none
    | some (f1, _) => some (run_exit f1)

end frame

/-! ## The backend instance -/

/-- A C string (`lava::name`, `char const*`, or a `char[]` field of a Vulkan record). -/
abbrev name := String

/-- The name of the Khronos validation layer (`VK_LAYER_KHRONOS_VALIDATION_NAME`). -/
def VK_LAYER_KHRONOS_VALIDATION_NAME : name := "VK_LAYER_KHRONOS_validation"

/-- The name of the RenderDoc capture layer (`VK_LAYER_RENDERDOC_CAPTURE_NAME`). -/
def VK_LAYER_RENDERDOC_CAPTURE_NAME : name := "VK_LAYER_RENDERDOC_Capture"

/-- The name of the debug-utils extension, from the Vulkan headers. -/
def VK_EXT_DEBUG_UTILS_EXTENSION_NAME : name := "VK_EXT_debug_utils"

/-- The record `VkLayerProperties`. -/
structure VkLayerProperties where
  layerName : name
  specVersion : Nat
  implementationVersion : Nat
  description : name
deriving DecidableEq, Repr

/-- The record `VkExtensionProperties`. -/
structure VkExtensionProperties where
  extensionName : name
  specVersion : Nat
deriving DecidableEq, Repr

/-- The version triple `internal_version`. -/
structure internal_version where
  major : Nat
  minor : Nat
  patch : Nat
deriving DecidableEq, Repr

/-- The enumeration `api_version`. -/
inductive api_version where
  | v1_0
  | v1_1
  | v1_2
deriving DecidableEq, Repr

/-- The record `instance::debug_config`. -/
structure debug_config where
  validation : Bool
  render_doc : Bool
  verbose : Bool
  utils : Bool
deriving DecidableEq, Repr

/-- The record `instance::app_info`; `app_name` is `none` for a null pointer. -/
structure app_info where
  app_name : Option name
  app_version : internal_version
  req_api_version : api_version
deriving DecidableEq, Repr

/-- The record `instance::create_param`. -/
structure create_param where
  layers : List name
  extensions : List name
deriving DecidableEq, Repr

/-- The record `VkApplicationInfo`. -/
structure VkApplicationInfo where
  pApplicationName : name
  applicationVersion : Nat
  pEngineName : name
  engineVersion : Nat
  apiVersion : Nat
deriving DecidableEq, Repr

/-- The record `VkInstanceCreateInfo`. -/
structure VkInstanceCreateInfo where
  pApplicationInfo : VkApplicationInfo
  ppEnabledLayerNames : List name
  ppEnabledExtensionNames : List name
deriving DecidableEq, Repr

/-- The record `VkDebugUtilsMessengerCreateInfoEXT`, reduced to whether the verbose and
info severities were requested on top of warning and error. -/
structure VkDebugUtilsMessengerCreateInfoEXT where
  verbose_and_info : Bool
deriving DecidableEq, Repr

/-- The version packing `VK_MAKE_VERSION` of the Vulkan headers, on 32-bit unsigned
values. -/
def VK_MAKE_VERSION (major minor patch : Nat) : Nat :=
  ((major <<< 22) ||| (minor <<< 12) ||| patch) % 2 ^ 32

/-- The reply of a Vulkan enumeration entry point to the two calls made on it. A call is
`ok` when `failed(result)` is false. `count` is the number reported by the first call;
`written` are the elements the second call stored into the buffer of `count` elements
handed to it, from its start. -/
structure enumeration (α : Type) where
  count_ok : Bool
  count : Nat
  fill_ok : Bool
  written : List α

/-- The buffer after the second call: `count` value-initialised elements, overwritten from
the front by what the backend stored. -/
def enumeration.buffer {α : Type} (e : enumeration α) (dflt : α) : List α :=
  (e.written ++ List.replicate e.count dflt).take e.count

/-- The count the second call reports back: the number of elements it stored, which is at
most the size `count` of the buffer. -/
def enumeration.reported {α : Type} (e : enumeration α) : Nat :=
  min e.written.length e.count

/-- The Vulkan loader and driver, as far as the instance calls them, and the build
constants of liblava that the instance passes on. A creation call answers `none` when
`failed(result)` holds, and then leaves the handle it was given untouched; otherwise it
answers the non-null handle it stored. -/
structure backend where
  layer_properties : enumeration VkLayerProperties
  extension_properties : enumeration VkExtensionProperties
  vkCreateInstance : VkInstanceCreateInfo → Option Nat
  physical_devices : Option Nat → enumeration Nat
  vkCreateDebugUtilsMessengerEXT : Option Nat → VkDebugUtilsMessengerCreateInfoEXT → Option Nat
  _lava_ : name
  _liblava_ : name
  _internal_version : internal_version

/-- A call into the backend that changes or reads the connection. -/
inductive vk_call where
  | vkCreateInstance
  | volkLoadInstance
  | vkEnumeratePhysicalDevices
  | vkCreateDebugUtilsMessengerEXT
  | vkDestroyDebugUtilsMessengerEXT
  | vkDestroyInstance
deriving DecidableEq, Repr

/-- An entry of the physical device catalog: the device handle it was set up from
(`0` is the null handle). -/
structure physical_device where
  vk_physical_device : Nat
deriving DecidableEq, Repr

/-- The state of `lava::instance`. A handle is `none` when it is null. `calls` records the
calls made into the backend. -/
structure Instance where
  debug : debug_config
  info : app_info
  vk_instance : Option Nat
  debug_messenger : Option Nat
  physical_devices : List physical_device
  calls : List vk_call
deriving DecidableEq, Repr

/-- `instance::enumerate_layer_properties`. -/
def enumerate_layer_properties (b : backend) : List VkLayerProperties :=
  if !b.layer_properties.count_ok then []
  else
    let list := b.layer_properties.buffer ⟨"", 0, 0, ""⟩
    if !b.layer_properties.fill_ok then [] else list

/-- `instance::enumerate_extension_properties` (for the null layer name). -/
def enumerate_extension_properties (b : backend) : List VkExtensionProperties :=
  if !b.extension_properties.count_ok then []
  else
    let list := b.extension_properties.buffer ⟨"", 0⟩
    if !b.extension_properties.fill_ok then [] else list

/-- The first loop of `lava::check`: each requested layer is looked up with `find_if`
among the enumerated ones; `strcmp(..) == 0` is equality of the two strings. -/
def check_layers (layer_properties : List VkLayerProperties) : List name → Bool
  | [] => true
  | layer_name :: rest =>
    match layer_properties.find? (fun extProp => layer_name == extProp.layerName) with
    | none => false
    | some _ => check_layers layer_properties rest

/-- The second loop of `lava::check`, over the requested extensions. -/
def check_extensions (extensions_properties : List VkExtensionProperties) : List name → Bool
  | [] => true
  | ext_name :: rest =>
    match extensions_properties.find? (fun extProp => ext_name == extProp.extensionName) with
    | none => false
    | some _ => check_extensions extensions_properties rest

/-- `lava::check(instance::create_param::ref)`. -/
def check (b : backend) (param : create_param) : Bool :=
  let layer_properties := enumerate_layer_properties b
  if !check_layers layer_properties param.layers then false
  else
    let extensions_properties := enumerate_extension_properties b
    if !check_extensions extensions_properties param.extensions then false
    else true

/-- Modelled from the spec: the helper `exists(list, item)` of liblava on a list of names
(its source is not part of the sources at hand, and `exists` is reserved here). The spec
has a name appended "if not already present": the helper tells whether `item` is one of
the names of `list`. -/
def exists_in (list : List name) (item : name) : Bool := list.contains item

namespace Instance

/-- The augmentation of `param` at the start of `instance::check_debug`. -/
def augment (debug : debug_config) (param : create_param) : create_param :=
  let param :=
    if debug.validation && !exists_in param.layers VK_LAYER_KHRONOS_VALIDATION_NAME then
      { param with layers := param.layers ++ [VK_LAYER_KHRONOS_VALIDATION_NAME] }
    else param
  let param :=
    if debug.render_doc && !exists_in param.layers VK_LAYER_RENDERDOC_CAPTURE_NAME then
      { param with layers := param.layers ++ [VK_LAYER_RENDERDOC_CAPTURE_NAME] }
    else param
  if debug.utils && !exists_in param.extensions VK_EXT_DEBUG_UTILS_EXTENSION_NAME then
    { param with extensions := param.extensions ++ [VK_EXT_DEBUG_UTILS_EXTENSION_NAME] }
  else param

/-- `instance::check_debug`: `param` is augmented in place and then checked. -/
def check_debug (b : backend) (i : Instance) (param : create_param) : create_param × Bool :=
  let param := augment i.debug param
  if !check b param then (param, false) else (param, true)

/-- `instance::enumerate_physical_devices`. -/
def enumerate_physical_devices (b : backend) (i : Instance) : Instance × Bool :=
  let i := { i with physical_devices := [] }
  let e := b.physical_devices i.vk_instance
  let i := { i with calls := i.calls ++ [vk_call.vkEnumeratePhysicalDevices] }
  if !e.count_ok then (i, false)
  else
    let devices := e.buffer 0
    let i := { i with calls := i.calls ++ [vk_call.vkEnumeratePhysicalDevices] }
    if !e.fill_ok then (i, false)
    else ({ i with physical_devices := devices.map physical_device.mk }, true)

/-- `instance::create_validation_report`. -/
def create_validation_report (b : backend) (i : Instance) : Instance × Bool :=
  let create_info : VkDebugUtilsMessengerCreateInfoEXT := ⟨i.debug.verbose⟩
  let i := { i with calls := i.calls ++ [vk_call.vkCreateDebugUtilsMessengerEXT] }
  match b.vkCreateDebugUtilsMessengerEXT i.vk_instance create_info with
  | none => (i, false)
  | some h => ({ i with debug_messenger := some h }, true)

/-- `instance::destroy_validation_report`. -/
def destroy_validation_report (i : Instance) : Instance :=
  if i.debug_messenger.isNone then i
  else
    { i with calls := i.calls ++ [vk_call.vkDestroyDebugUtilsMessengerEXT],
             debug_messenger := none }

/-- The application record built by `instance::create`. -/
def application_info (b : backend) (info : app_info) : VkApplicationInfo :=
  { pApplicationName := match info.app_name with
      | some n => n
      | none => b._lava_
    applicationVersion :=
      VK_MAKE_VERSION info.app_version.major info.app_version.minor info.app_version.patch
    pEngineName := b._liblava_
    engineVersion :=
      VK_MAKE_VERSION b._internal_version.major b._internal_version.minor
        b._internal_version.patch
    apiVersion := match info.req_api_version with
      | api_version.v1_0 => VK_MAKE_VERSION 1 0 0
      | api_version.v1_1 => VK_MAKE_VERSION 1 1 0
      | api_version.v1_2 => VK_MAKE_VERSION 1 2 0 }

/-- The record `create_info` built by `instance::create` from the application record and
the negotiated layers and extensions. -/
def create_info (b : backend) (info : app_info) (param : create_param) :
    VkInstanceCreateInfo :=
  { pApplicationInfo := application_info b info
    ppEnabledLayerNames := param.layers
    ppEnabledExtensionNames := param.extensions }

/-- `instance::create`. `param` is passed by reference, so its final value is returned
next to the instance and the C++ return value. -/
def create (b : backend) (i : Instance) (param : create_param) (d : debug_config)
    (inf : app_info) : Instance × create_param × Bool :=
  let i := { i with debug := d, info := inf }
  let (param, checked) := check_debug b i param
  if !checked then (i, param, false)
  else
    let i := { i with calls := i.calls ++ [vk_call.vkCreateInstance] }
    match b.vkCreateInstance (create_info b i.info param) with
    | none => (i, param, false)
    | some h =>
      let i := { i with vk_instance := some h }
      let i := { i with calls := i.calls ++ [vk_call.volkLoadInstance] }
      let (i, enumerated) := enumerate_physical_devices b i
      if !enumerated then (i, param, false)
      else if i.debug.utils then
        let (i, installed) := create_validation_report b i
        if !installed then (i, param, false) else (i, param, true)
      else (i, param, true)

/-- `instance::destroy`. The source reads `if (!vk_instance) return` followed, without a
semicolon, by `physical_devices.clear();`, so the call is the operand of the `return`: the
catalog is cleared exactly when the handle is null, and the rest runs when it is not. -/
def destroy (i : Instance) : Instance :=
  if i.vk_instance.isNone then { i with physical_devices := [] }
  else
    let i := if i.debug.utils then destroy_validation_report i else i
    let i := { i with calls := i.calls ++ [vk_call.vkDestroyInstance] }
    { i with vk_instance := none }

/-- An instance right after construction. -/
def fresh : Instance :=
  { debug := ⟨false, false, false, false⟩, info := ⟨none, ⟨0, 0, 0⟩, api_version.v1_0⟩,
    vk_instance := none, debug_messenger := none, physical_devices := [], calls := [] }

end Instance

/-! ## Registration order of the teardown callbacks -/

namespace frame

variable {σ : Type}

/-- A call on the registration interface, as far as the teardown registry is concerned. -/
inductive reg_call (σ : Type) where
  | add_run_end (func : run_end_func σ)
  | remove (k : id_t)

/-- One registration call applied to a frame and to the registration record: the
identifiers of the teardown callbacks now registered, earliest registration first. A
registration is entered at the end, a successful removal takes the identifier out. -/
def replay_call (s : frame σ × List id_t) : reg_call σ → frame σ × List id_t
  | reg_call.add_run_end func => ((s.1.add_run_end func).1, s.2 ++ [(s.1.add_run_end func).2])
  | reg_call.remove k =>
    ((s.1.remove k).1, if (s.1.remove k).2 then s.2.filter (fun j => decide (j ≠ k)) else s.2)

/-- A sequence of registration calls applied in order. -/
def replay : List (reg_call σ) → frame σ × List id_t → frame σ × List id_t
  | [], s => s
  | c :: rest, s => replay rest (replay_call s c)

/-- Whether every `add_run_end` of the sequence is served by the counter of the allocator,
none by its queue of released identifiers. -/
def counter_only : List (reg_call σ) → frame σ → Bool
  | [], _ => true
  | reg_call.add_run_end func :: rest, f =>
    f.id_state.free_ids.isEmpty && counter_only rest (f.add_run_end func).1
  | reg_call.remove k :: rest, f => counter_only rest (f.remove k).1

/-- The identifiers of the teardown invocations in a log, in order. -/
def run_end_keys : List event → List id_t
  | [] => []
  | event.run_end k :: rest => k :: run_end_keys rest
  | _ :: rest => run_end_keys rest

/-- The teardown callbacks that `trigger_run_end` invokes on `f`, in order of invocation. -/
def teardown_order (f : frame σ) : List id_t :=
  run_end_keys ((trigger_run_end f).log.drop f.log.length)

/-- The invariant of the registries and the allocator that the registration interface
maintains: both maps are in strictly ascending key order, no identifier is in both, and the
released identifiers are distinct, in no map, and like all keys at most the counter. -/
structure wf (f : frame σ) : Prop where
  run_sorted : (map_keys f.run_map).Pairwise (· < ·)
  end_sorted : (map_keys f.run_end_map).Pairwise (· < ·)
  disjoint : ∀ k ∈ map_keys f.run_map, k ∉ map_keys f.run_end_map
  free_nodup : f.id_state.free_ids.Nodup
  free_unused : ∀ k ∈ f.id_state.free_ids,
    k ∉ map_keys f.run_map ∧ k ∉ map_keys f.run_end_map
  bounded : ∀ k, k ∈ map_keys f.run_map ∨ k ∈ map_keys f.run_end_map ∨
    k ∈ f.id_state.free_ids → k ≤ f.id_state.next_id

/-! ## The end-to-end scenario -/

/-- The steady-state callback of the end-to-end scenario of the spec: it increments a
counter, never calls `shut_down()`, and returns success on its first `n` invocations. -/
def counting (n : Nat) : run_func Nat := fun _ a => ⟨a + 1, false, decide (a < n)⟩

/-- The application data after `i` invocations of `func` in a running frame, from `a`. -/
def app_after (func : run_func σ) : Nat → σ → σ
  | 0, a => a
  | i + 1, a => app_after func i (func true a).app

/-- The log of `i` loop steps of a frame whose only callback is the steady-state callback
`k`: each step polls the events and invokes the callback. -/
def steps_log (k : id_t) : Nat → List event
  | 0 => []
  | i + 1 => [event.handle_events, event.run k] ++ steps_log k i

/-! ## Loop tests of `run` -/

/-- The frame of a loop step after its first statement, `handle_events(wait_for_events)`:
the state in which the first callback of the step is invoked. -/
def polled (f : frame σ) : frame σ :=
  { f with log := f.log ++ [event.handle_events] }

/-- The frame at the loop test of `run` that follows `k` loop steps of a running frame,
none of which was left through `break`; `none` when the loop is left before that. -/
def loop_state : Nat → frame σ → Option (frame σ)
  | 0, f => some f
  | k + 1, f =>
    if f.running then
      if (run_step f).2 then loop_state k (run_step f).1 else none
    else none

end frame

/-! ## Sample data -/

/-- A backend for the examples: one layer `L`, no extension, connection handle 7, the
devices 11 and 12, messenger handle 9. -/
def sample_backend : backend :=
  { layer_properties := ⟨true, 1, true, [⟨"L", 1, 1, ""⟩]⟩
    extension_properties := ⟨true, 1, true, [⟨VK_EXT_DEBUG_UTILS_EXTENSION_NAME, 1⟩]⟩
    vkCreateInstance := fun _ => some 7
    physical_devices := fun _ => ⟨true, 2, true, [11, 12]⟩
    vkCreateDebugUtilsMessengerEXT := fun _ _ => some 9
    _lava_ := "lava"
    _liblava_ := "liblava"
    _internal_version := ⟨0, 5, 0⟩ }

/-- Application data for the examples. -/
def sample_info : app_info := ⟨none, ⟨1, 0, 0⟩, api_version.v1_1⟩

/-! # Properties

## Maps -/

section maps

variable {α : Type}

theorem mem_keys_emplace (k : id_t) (v : α) (m : List (id_t × α)) (j : id_t) :
    j ∈ map_keys (map_emplace k v m) ↔ j = k ∨ j ∈ map_keys m := by
  induction m with
  | nil => simp [map_emplace, map_keys]
  | cons e rest ih =>
    obtain ⟨k', v'⟩ := e
    unfold map_emplace
    by_cases h1 : k < k'
    · simp [h1, map_keys]
    · by_cases h2 : k = k'
      · subst h2
        simp [map_keys]
      · simp only [h1, h2, if_false]
        simp only [map_keys, List.map_cons, List.mem_cons] at ih ⊢
        rw [ih]
        tauto

theorem keys_emplace_sorted (k : id_t) (v : α) (m : List (id_t × α))
    (h : (map_keys m).Pairwise (· < ·)) : (map_keys (map_emplace k v m)).Pairwise (· < ·) := by
  induction m with
  | nil => simp [map_emplace, map_keys]
  | cons e rest ih =>
    obtain ⟨k', v'⟩ := e
    have hk : ∀ j ∈ map_keys rest, k' < j := by
      intro j hj
      exact (List.pairwise_cons.mp h).1 j hj
    have hrest : (map_keys rest).Pairwise (· < ·) := (List.pairwise_cons.mp h).2
    unfold map_emplace
    by_cases h1 : k < k'
    · simp only [h1, if_true]
      show (k :: map_keys ((k', v') :: rest)).Pairwise (· < ·)
      refine List.pairwise_cons.mpr ⟨?_, h⟩
      intro j hj
      rcases List.mem_cons.mp hj with rfl | hj
      · exact h1
      · exact lt_trans h1 (hk j hj)
    · by_cases h2 : k = k'
      · simpa [h1, h2] using h
      · simp only [h1, h2, if_false]
        show (k' :: map_keys (map_emplace k v rest)).Pairwise (· < ·)
        refine List.pairwise_cons.mpr ⟨?_, ih hrest⟩
        intro j hj
        rcases (mem_keys_emplace k v rest j).mp hj with rfl | hj
        · exact lt_of_le_of_ne (not_lt.mp h1) (Ne.symm h2)
        · exact hk j hj

theorem keys_emplace_last (k : id_t) (v : α) (m : List (id_t × α))
    (h : ∀ j ∈ map_keys m, j < k) : map_keys (map_emplace k v m) = map_keys m ++ [k] := by
  induction m with
  | nil => simp [map_emplace, map_keys]
  | cons e rest ih =>
    obtain ⟨k', v'⟩ := e
    have hk' : k' < k := h k' (by simp [map_keys])
    have h1 : ¬ k < k' := not_lt.mpr hk'.le
    have h2 : ¬ k = k' := ne_of_gt hk'
    unfold map_emplace
    simp only [h1, h2, if_false]
    have := ih (fun j hj => h j (by simp only [map_keys, List.map_cons, List.mem_cons] at hj ⊢; exact Or.inr hj))
    simp only [map_keys, List.map_cons, List.cons_append] at this ⊢
    rw [this]

theorem keys_erase (k : id_t) (m : List (id_t × α)) :
    map_keys (map_erase k m) = (map_keys m).filter (fun j => decide (j ≠ k)) := by
  induction m with
  | nil => rfl
  | cons e rest ih =>
    have ih' : List.map Prod.fst (List.filter (fun e => decide (e.1 ≠ k)) rest) =
        List.filter (fun j => decide (j ≠ k)) (List.map Prod.fst rest) := ih
    show List.map Prod.fst (List.filter (fun e => decide (e.1 ≠ k)) (e :: rest)) =
        List.filter (fun j => decide (j ≠ k)) (List.map Prod.fst (e :: rest))
    rw [List.filter_cons, List.map_cons, List.filter_cons]
    by_cases h : e.1 = k
    · rw [if_neg (by simp [h]), if_neg (by simp [h])]
      exact ih'
    · rw [if_pos (by simp [h]), if_pos (by simp [h]), List.map_cons, ih']

theorem mem_keys_erase (k : id_t) (m : List (id_t × α)) (j : id_t) :
    j ∈ map_keys (map_erase k m) ↔ j ∈ map_keys m ∧ j ≠ k := by
  rw [keys_erase]
  simp [List.mem_filter]

theorem keys_erase_sorted (k : id_t) (m : List (id_t × α))
    (h : (map_keys m).Pairwise (· < ·)) : (map_keys (map_erase k m)).Pairwise (· < ·) := by
  rw [keys_erase]
  exact h.sublist (List.filter_sublist _)

theorem map_count_ne_zero (m : List (id_t × α)) (k : id_t) :
    map_count m k ≠ 0 ↔ k ∈ map_keys m := by
  unfold map_count
  by_cases h : k ∈ map_keys m <;> simp [h]

end maps

namespace frame

variable {σ : Type}

/-! ## The registries and the allocator -/

theorem wf_fresh (a : σ) : wf (fresh a) := by
  constructor <;> simp [fresh, map_keys]

/-- What `ids::next` hands out in a well-formed frame is in neither registry, and the
allocator stays consistent with them. -/
theorem next_unused (f : frame σ) (h : wf f) :
    f.id_state.next.1 ∉ map_keys f.run_map ∧ f.id_state.next.1 ∉ map_keys f.run_end_map ∧
    f.id_state.next.2.free_ids.Nodup ∧
    (∀ j ∈ f.id_state.next.2.free_ids, j ∈ f.id_state.free_ids ∧ j ≠ f.id_state.next.1) ∧
    f.id_state.next.1 ≤ f.id_state.next.2.next_id ∧
    f.id_state.next_id ≤ f.id_state.next.2.next_id := by
  unfold ids.next
  cases hf : f.id_state.free_ids with
  | nil =>
    simp only
    refine ⟨?_, ?_, List.nodup_nil, ?_, le_refl _, Nat.le_succ _⟩
    · intro hk
      exact Nat.not_succ_le_self _ (h.bounded _ (Or.inl hk))
    · intro hk
      exact Nat.not_succ_le_self _ (h.bounded _ (Or.inr (Or.inl hk)))
    · intro j hj
      cases hj
  | cons x rest =>
    simp only
    have hn := h.free_nodup
    rw [hf] at hn
    have hx := h.free_unused x (by rw [hf]; exact List.mem_cons_self _ _)
    refine ⟨hx.1, hx.2, (List.nodup_cons.mp hn).2, ?_, ?_, le_refl _⟩
    · intro j hj
      refine ⟨List.mem_cons_of_mem _ hj, ?_⟩
      rintro rfl
      exact (List.nodup_cons.mp hn).1 hj
    · exact h.bounded x (Or.inr (Or.inr (by rw [hf]; exact List.mem_cons_self _ _)))

theorem wf_add_run (f : frame σ) (func : run_func σ) (h : wf f) : wf (f.add_run func).1 := by
  obtain ⟨h1, h2, h3, h4, h5, h6⟩ := next_unused f h
  constructor
  · exact keys_emplace_sorted _ _ _ h.run_sorted
  · exact h.end_sorted
  · intro k hk
    rcases (mem_keys_emplace _ _ _ _).mp hk with rfl | hk
    · exact h2
    · exact h.disjoint k hk
  · exact h3
  · intro k hk
    obtain ⟨hk1, hk2⟩ := h4 k hk
    refine ⟨?_, (h.free_unused k hk1).2⟩
    intro hm
    rcases (mem_keys_emplace _ _ _ _).mp hm with heq | hm
    · exact hk2 heq
    · exact (h.free_unused k hk1).1 hm
  · intro k hk
    rcases hk with hk | hk | hk
    · rcases (mem_keys_emplace _ _ _ _).mp hk with heq | hk
      · rw [heq]; exact h5
      · exact le_trans (h.bounded k (Or.inl hk)) h6
    · exact le_trans (h.bounded k (Or.inr (Or.inl hk))) h6
    · exact le_trans (h.bounded k (Or.inr (Or.inr (h4 k hk).1))) h6

theorem wf_add_run_end (f : frame σ) (func : run_end_func σ) (h : wf f) :
    wf (f.add_run_end func).1 := by
  obtain ⟨h1, h2, h3, h4, h5, h6⟩ := next_unused f h
  constructor
  · exact h.run_sorted
  · exact keys_emplace_sorted _ _ _ h.end_sorted
  · intro k hk hm
    rcases (mem_keys_emplace _ _ _ _).mp hm with heq | hm
    · exact h1 (heq ▸ hk)
    · exact h.disjoint k hk hm
  · exact h3
  · intro k hk
    obtain ⟨hk1, hk2⟩ := h4 k hk
    refine ⟨(h.free_unused k hk1).1, ?_⟩
    intro hm
    rcases (mem_keys_emplace _ _ _ _).mp hm with heq | hm
    · exact hk2 heq
    · exact (h.free_unused k hk1).2 hm
  · intro k hk
    rcases hk with hk | hk | hk
    · exact le_trans (h.bounded k (Or.inl hk)) h6
    · rcases (mem_keys_emplace _ _ _ _).mp hk with heq | hk
      · rw [heq]; exact h5
      · exact le_trans (h.bounded k (Or.inr (Or.inl hk))) h6
    · exact le_trans (h.bounded k (Or.inr (Or.inr (h4 k hk).1))) h6

/-- The three cases of `frame::remove`. -/
theorem remove_cases (f : frame σ) (k : id_t) :
    (k ∈ map_keys f.run_map ∧
      f.remove k = ({ f with run_map := map_erase k f.run_map,
                             id_state := f.id_state.free k }, true)) ∨
    (k ∉ map_keys f.run_map ∧ k ∈ map_keys f.run_end_map ∧
      f.remove k = ({ f with run_end_map := map_erase k f.run_end_map,
                             id_state := f.id_state.free k }, true)) ∨
    (k ∉ map_keys f.run_map ∧ k ∉ map_keys f.run_end_map ∧ f.remove k = (f, false)) := by
  by_cases h1 : k ∈ map_keys f.run_map
  · left
    refine ⟨h1, ?_⟩
    simp [remove, map_count, h1]
  · by_cases h2 : k ∈ map_keys f.run_end_map
    · right; left
      refine ⟨h1, h2, ?_⟩
      simp [remove, map_count, h1, h2]
    · right; right
      refine ⟨h1, h2, ?_⟩
      simp [remove, map_count, h1, h2]

theorem wf_remove (f : frame σ) (k : id_t) (h : wf f) : wf (f.remove k).1 := by
  rcases remove_cases f k with ⟨h1, he⟩ | ⟨h1, h2, he⟩ | ⟨_, _, he⟩
  · rw [he]
    have hfree : k ∉ f.id_state.free_ids := fun hm => (h.free_unused k hm).1 h1
    constructor
    · exact keys_erase_sorted _ _ h.run_sorted
    · exact h.end_sorted
    · intro j hj
      exact h.disjoint j ((mem_keys_erase _ _ _).mp hj).1
    · simp only [ids.free]
      exact List.Nodup.append h.free_nodup (List.nodup_singleton k)
        (by simpa using hfree)
    · intro j hj
      simp only [ids.free, List.mem_append, List.mem_singleton] at hj
      rcases hj with hj | rfl
      · exact ⟨fun hm => (h.free_unused j hj).1 ((mem_keys_erase _ _ _).mp hm).1,
          (h.free_unused j hj).2⟩
      · exact ⟨fun hm => ((mem_keys_erase _ _ _).mp hm).2 rfl, h.disjoint _ h1⟩
    · intro j hj
      simp only [ids.free, List.mem_append, List.mem_singleton] at hj
      rcases hj with hj | hj | hj | rfl
      · exact h.bounded j (Or.inl ((mem_keys_erase _ _ _).mp hj).1)
      · exact h.bounded j (Or.inr (Or.inl hj))
      · exact h.bounded j (Or.inr (Or.inr hj))
      · exact h.bounded _ (Or.inl h1)
  · rw [he]
    have hfree : k ∉ f.id_state.free_ids := fun hm => (h.free_unused k hm).2 h2
    constructor
    · exact h.run_sorted
    · exact keys_erase_sorted _ _ h.end_sorted
    · intro j hj hm
      exact h.disjoint j hj ((mem_keys_erase _ _ _).mp hm).1
    · simp only [ids.free]
      exact List.Nodup.append h.free_nodup (List.nodup_singleton k)
        (by simpa using hfree)
    · intro j hj
      simp only [ids.free, List.mem_append, List.mem_singleton] at hj
      rcases hj with hj | rfl
      · exact ⟨(h.free_unused j hj).1,
          fun hm => (h.free_unused j hj).2 ((mem_keys_erase _ _ _).mp hm).1⟩
      · exact ⟨h1, fun hm => ((mem_keys_erase _ _ _).mp hm).2 rfl⟩
    · intro j hj
      simp only [ids.free, List.mem_append, List.mem_singleton] at hj
      rcases hj with hj | hj | hj | rfl
      · exact h.bounded j (Or.inl hj)
      · exact h.bounded j (Or.inr (Or.inl ((mem_keys_erase _ _ _).mp hj).1))
      · exact h.bounded j (Or.inr (Or.inr hj))
      · exact h.bounded _ (Or.inr (Or.inl h2))
  · rw [he]
    exact h

/-! ## Teardown order -/

theorem call_end_log (e : event) (func : run_end_func σ) (f : frame σ) :
    (call_end e func f).log = f.log ++ [e] := by
  unfold call_end shut_down
  dsimp only
  split_ifs <;> rfl

theorem run_end_loop_log (l : List (id_t × run_end_func σ)) (f : frame σ) :
    (run_end_loop l f).log = f.log ++ l.map (fun x => event.run_end x.1) := by
  induction l generalizing f with
  | nil => simp [run_end_loop]
  | cons x rest ih =>
    rw [run_end_loop, ih, call_end_log]
    simp

theorem run_end_keys_map (l : List (id_t × run_end_func σ)) :
    run_end_keys (l.map (fun x => event.run_end x.1)) = map_keys l := by
  induction l with
  | nil => rfl
  | cons x rest ih =>
    simp only [List.map_cons, run_end_keys, map_keys] at ih ⊢
    rw [ih]

/-- The teardown phase visits the registry in descending key order. -/
theorem teardown_order_eq (f : frame σ) :
    teardown_order f = (map_keys f.run_end_map).reverse := by
  unfold teardown_order trigger_run_end
  rw [run_end_loop_log, List.drop_left, run_end_keys_map]
  simp [map_keys]

theorem replay_wf (calls : List (reg_call σ)) (s : frame σ × List id_t)
    (h : wf s.1) (hn : s.2.Nodup) (hm : ∀ k, k ∈ s.2 ↔ k ∈ map_keys s.1.run_end_map) :
    wf (replay calls s).1 ∧ (replay calls s).2.Nodup ∧
    ∀ k, k ∈ (replay calls s).2 ↔ k ∈ map_keys (replay calls s).1.run_end_map := by
  induction calls generalizing s with
  | nil => exact ⟨h, hn, hm⟩
  | cons c rest ih =>
    rw [replay]
    apply ih
    · cases c with
      | add_run_end func => exact wf_add_run_end _ _ h
      | remove k => exact wf_remove _ _ h
    · cases c with
      | add_run_end func =>
        simp only [replay_call]
        have hk : (s.1.add_run_end func).2 ∉ s.2 := by
          rw [hm]
          exact (next_unused s.1 h).2.1
        exact List.Nodup.append hn (List.nodup_singleton _) (by simpa using hk)
      | remove k =>
        simp only [replay_call]
        split
        · exact hn.filter _
        · exact hn
    · intro j
      cases c with
      | add_run_end func =>
        simp only [replay_call, List.mem_append, List.mem_singleton]
        rw [hm]
        show _ ↔ j ∈ map_keys (map_emplace _ _ _)
        rw [mem_keys_emplace]
        exact or_comm
      | remove k =>
        simp only [replay_call]
        rcases remove_cases s.1 k with ⟨h1, he⟩ | ⟨h1, h2, he⟩ | ⟨_, _, he⟩
        · rw [he]
          simp only [if_true, List.mem_filter, decide_eq_true_eq]
          rw [hm]
          constructor
          · exact fun hj => hj.1
          · intro hj
            refine ⟨hj, ?_⟩
            rintro rfl
            exact h.disjoint _ h1 hj
        · rw [he]
          simp only [if_true, List.mem_filter, decide_eq_true_eq]
          rw [hm, mem_keys_erase]
        · rw [he]
          simpa using hm j

theorem replay_counter_only (calls : List (reg_call σ)) (s : frame σ × List id_t)
    (h : wf s.1) (hm : s.2 = map_keys s.1.run_end_map)
    (hc : counter_only calls s.1 = true) :
    (replay calls s).2 = map_keys (replay calls s).1.run_end_map := by
  induction calls generalizing s with
  | nil => exact hm
  | cons c rest ih =>
    rw [replay]
    cases c with
    | add_run_end func =>
      simp only [counter_only, Bool.and_eq_true, List.isEmpty_iff] at hc
      apply ih
      · exact wf_add_run_end _ _ h
      · simp only [replay_call]
        have hk : (s.1.add_run_end func).2 = s.1.id_state.next_id + 1 := by
          simp [add_run_end, ids.next, hc.1]
        show _ = map_keys (map_emplace _ _ _)
        rw [keys_emplace_last, hm]
        · rfl
        · intro j hj
          have hb := h.bounded j (Or.inr (Or.inl hj))
          show j < (s.1.add_run_end func).2
          rw [hk]
          exact Nat.lt_succ_of_le hb
      · exact hc.2
    | remove k =>
      simp only [counter_only] at hc
      apply ih
      · exact wf_remove _ _ h
      · simp only [replay_call]
        rcases remove_cases s.1 k with ⟨h1, he⟩ | ⟨h1, h2, he⟩ | ⟨_, _, he⟩
        · rw [he]
          simp only [if_true]
          rw [hm]
          apply List.filter_eq_self.mpr
          intro j hj
          simp only [decide_eq_true_eq]
          rintro rfl
          exact h.disjoint _ h1 hj
        · rw [he]
          simp only [if_true]
          rw [hm, keys_erase]
        · rw [he]
          simpa using hm
      · exact hc

/-- C1 (as amended): after any sequence of `add_run_end` and `remove` calls on a new frame,
`trigger_run_end` invokes exactly the teardown callbacks now registered, each once, in
strictly descending identifier order; when every `add_run_end` of the sequence got its
identifier from the counter of the allocator (no released identifier was handed out
again) that order is the reverse of the registration order. -/
theorem trigger_run_end_descending_ids (a : σ) (calls : List (reg_call σ)) :
    (teardown_order (replay calls (fresh a, [])).1).Perm (replay calls (fresh a, [])).2 ∧
    (teardown_order (replay calls (fresh a, [])).1).Pairwise (· > ·) ∧
    (counter_only calls (fresh a) = true →
      teardown_order (replay calls (fresh a, [])).1
        = (replay calls (fresh a, [])).2.reverse) := by
  obtain ⟨hw, hn, hm⟩ := replay_wf calls (fresh a, []) (wf_fresh a) List.nodup_nil
    (by intro k; simp [fresh, map_keys])
  refine ⟨?_, ?_, ?_⟩
  · rw [teardown_order_eq]
    refine (List.reverse_perm _).trans ?_
    exact (List.perm_ext_iff_of_nodup (hw.end_sorted.imp (fun h => ne_of_lt h)) hn).mpr
      (fun k => (hm k).symm)
  · rw [teardown_order_eq, List.pairwise_reverse]
    exact hw.end_sorted
  · intro hc
    rw [teardown_order_eq, replay_counter_only calls (fresh a, []) (wf_fresh a) rfl hc]

/-- C1, instance of the amended statement: three registrations served by the counter are
torn down in the order 3, 2, 1. -/
theorem trigger_run_end_descending_ids_witness :
    teardown_order (replay [reg_call.add_run_end (fun _ (u : Unit) => (u, false)),
        reg_call.add_run_end (fun _ u => (u, false)),
        reg_call.add_run_end (fun _ u => (u, false))] (fresh (), [])).1 = [3, 2, 1] := by
  have h := (trigger_run_end_descending_ids ()
    [reg_call.add_run_end (fun _ (u : Unit) => (u, false)),
     reg_call.add_run_end (fun _ u => (u, false)),
     reg_call.add_run_end (fun _ u => (u, false))]).2.2 (by decide)
  rw [h]
  decide

/-- C1, as stated, fails: `A`, `B`, `C` are registered (identifiers 1, 2, 3), `A` is
removed, and `D` is registered and gets the released identifier 1. The registration order
is then `B, C, D` = 2, 3, 1, but the teardown runs 3, 2, 1 = `C, B, D`, not `D, C, B`. -/
theorem trigger_run_end_not_reverse_registration :
    (replay [reg_call.add_run_end (fun _ (u : Unit) => (u, false)),
        reg_call.add_run_end (fun _ u => (u, false)),
        reg_call.add_run_end (fun _ u => (u, false)),
        reg_call.remove 1,
        reg_call.add_run_end (fun _ u => (u, false))] (fresh (), [])).2 = [2, 3, 1] ∧
    teardown_order (replay [reg_call.add_run_end (fun _ (u : Unit) => (u, false)),
        reg_call.add_run_end (fun _ u => (u, false)),
        reg_call.add_run_end (fun _ u => (u, false)),
        reg_call.remove 1,
        reg_call.add_run_end (fun _ u => (u, false))] (fresh (), [])).1 = [3, 2, 1] ∧
    [3, 2, 1] ≠ [2, 3, 1].reverse := by
  decide

/-! ## Loop steps -/

/-- A callback invocation changes neither the registries nor the allocator nor
`start_time`, and it never turns `running` on. -/
theorem call_frame (e : event) (func : run_func σ) (f : frame σ) :
    (call e func f).1.run_once_list = f.run_once_list ∧
    (call e func f).1.run_map = f.run_map ∧
    (call e func f).1.run_end_map = f.run_end_map ∧
    (call e func f).1.id_state = f.id_state ∧
    (call e func f).1.start_time = f.start_time ∧
    (call e func f).2 = (func f.running f.app).result := by
  unfold call shut_down
  dsimp only
  split_ifs <;> exact ⟨rfl, rfl, rfl, rfl, rfl, rfl⟩

theorem run_once_loop_queue (l : List (run_func σ)) (i : Nat) (f : frame σ) :
    (run_once_loop l i f).1.run_once_list = f.run_once_list ∧
    (run_once_loop l i f).1.run_map = f.run_map := by
  induction l generalizing i f with
  | nil => exact ⟨rfl, rfl⟩
  | cons func rest ih =>
    unfold run_once_loop
    obtain ⟨h1, h2, -⟩ := call_frame (event.run_once i) func f
    cases hr : (call (event.run_once i) func f).2
    · simp only [hr, Bool.not_false, if_true]
      exact ⟨h1, h2⟩
    · simp only [hr, Bool.not_true, Bool.false_eq_true, if_false]
      rw [(ih (i + 1) _).1, (ih (i + 1) _).2]
      exact ⟨h1, h2⟩

theorem run_map_loop_queue (l : List (id_t × run_func σ)) (f : frame σ) :
    (run_map_loop l f).1.run_once_list = f.run_once_list := by
  induction l generalizing f with
  | nil => rfl
  | cons func rest ih =>
    unfold run_map_loop
    obtain ⟨h1, -⟩ := call_frame (event.run func.1) func.2 f
    cases hr : (call (event.run func.1) func.2 f).2
    · simp only [hr, Bool.not_false, if_true]
      exact h1
    · simp only [hr, Bool.not_true, Bool.false_eq_true, if_false]
      rw [ih]
      exact h1

/-- The one-shot loop reports failure exactly when one of the callbacks it invoked
returned false; the callbacks after that one are not invoked. -/
theorem run_once_loop_false (l : List (run_func σ)) (i : Nat) (f : frame σ)
    (h : (run_once_loop l i f).2 = false) : ∃ func ∈ l, ∃ r a, (func r a).result = false := by
  induction l generalizing i f with
  | nil => cases h
  | cons func rest ih =>
    unfold run_once_loop at h
    obtain ⟨-, -, -, -, -, h6⟩ := call_frame (event.run_once i) func f
    cases hr : (call (event.run_once i) func f).2
    · exact ⟨func, List.mem_cons_self _ _, _, _, h6.symm.trans hr⟩
    · simp only [hr, Bool.not_true, Bool.false_eq_true, if_false] at h
      obtain ⟨g, hg, hres⟩ := ih _ _ h
      exact ⟨g, List.mem_cons_of_mem _ hg, hres⟩

/-- The steady-state loop reports failure only when one of its callbacks returned false. -/
theorem run_map_loop_false (l : List (id_t × run_func σ)) (f : frame σ)
    (h : (run_map_loop l f).2 = false) : ∃ x ∈ l, ∃ r a, (x.2 r a).result = false := by
  induction l generalizing f with
  | nil => cases h
  | cons func rest ih =>
    unfold run_map_loop at h
    obtain ⟨-, -, -, -, -, h6⟩ := call_frame (event.run func.1) func.2 f
    cases hr : (call (event.run func.1) func.2 f).2
    · exact ⟨func, List.mem_cons_self _ _, _, _, h6.symm.trans hr⟩
    · simp only [hr, Bool.not_true, Bool.false_eq_true, if_false] at h
      obtain ⟨g, hg, hres⟩ := ih _ h
      exact ⟨g, List.mem_cons_of_mem _ hg, hres⟩

/-- `run_step` returns false only when a one-shot or a steady-state callback returned
false. -/
theorem run_step_false (f : frame σ) (h : (run_step f).2 = false) :
    (∃ func ∈ f.run_once_list, ∃ r a, (func r a).result = false) ∨
    (∃ x ∈ f.run_map, ∃ r a, (x.2 r a).result = false) := by
  unfold run_step at h
  dsimp only at h
  by_cases he : f.run_once_list.isEmpty = true
  · simp only [he, Bool.not_true, Bool.false_eq_true, if_false] at h
    exact Or.inr (run_map_loop_false _ _ h)
  · simp only [he, Bool.not_false, if_true] at h
    cases ho : (run_once_loop f.run_once_list 0
        { f with log := f.log ++ [event.handle_events] }).2
    · exact Or.inl (run_once_loop_false _ _ _ ho)
    · simp only [ho, Bool.not_true, Bool.false_eq_true, if_false] at h
      have hm := (run_once_loop_queue f.run_once_list 0
        { f with log := f.log ++ [event.handle_events] }).2
      obtain ⟨x, hx, hres⟩ := run_map_loop_false _ _ h
      rw [hm] at hx
      exact Or.inr ⟨x, hx, hres⟩

/-- What `run_step` leaves in the one-shot queue: nothing when every one-shot callback
succeeded, the whole queue when one of them failed. -/
theorem run_step_queue (f : frame σ) :
    (run_step f).1.run_once_list =
      if (run_once_loop f.run_once_list 0
          { f with log := f.log ++ [event.handle_events] }).2
      then [] else f.run_once_list := by
  unfold run_step
  dsimp only
  by_cases he : f.run_once_list.isEmpty = true
  · have hnil : f.run_once_list = [] := List.isEmpty_iff.mp he
    simp only [he, Bool.not_true, Bool.false_eq_true, if_false]
    rw [run_map_loop_queue]
    simp [hnil, run_once_loop]
  · simp only [he, Bool.not_false, if_true]
    cases ho : (run_once_loop f.run_once_list 0
        { f with log := f.log ++ [event.handle_events] }).2
    · simp only [ho, Bool.not_false, if_true, Bool.false_eq_true, if_false]
      exact (run_once_loop_queue _ _ _).1
    · simp only [ho, Bool.not_true, Bool.false_eq_true, if_false, if_true]
      rw [run_map_loop_queue]

/-- A loop that was left through `break` was left by a `run_step` that returned false in
a running frame. -/
theorem run_loop_break_exit (fuel : Nat) (f f1 : frame σ)
    (h : run_loop fuel f = some (f1, false)) :
    ∃ g : frame σ, g.running = true ∧ run_step g = (f1, false) := by
  induction fuel generalizing f with
  | zero =>
    unfold run_loop at h
    by_cases hr : f.running = true <;> simp [hr] at h
  | succ n ih =>
    unfold run_loop at h
    by_cases hr : f.running = true
    · simp only [hr, if_true] at h
      cases hs : (run_step f).2
      · simp only [hs, Bool.not_false, if_true, Option.some.injEq, Prod.mk.injEq,
          and_true] at h
        exact ⟨f, hr, Prod.ext h hs⟩
      · simp only [hs] at h
        exact ih _ (by simpa using h)
    · simp [hr] at h

/-! ## Result of `run` -/

theorem call_end_running (e : event) (func : run_end_func σ) (f : frame σ) :
    (call_end e func f).running = (f.running && !(func f.running f.app).2) := by
  unfold call_end shut_down
  dsimp only
  cases h1 : (func f.running f.app).2 <;> cases h2 : f.running <;> simp

theorem call_end_registry (e : event) (func : run_end_func σ) (f : frame σ) :
    (call_end e func f).run_end_map = f.run_end_map ∧
    (call_end e func f).start_time = f.start_time := by
  unfold call_end shut_down
  dsimp only
  split_ifs <;> exact ⟨rfl, rfl⟩

/-- The teardown phase never turns `running` on. -/
theorem run_end_loop_running_false (l : List (id_t × run_end_func σ)) (f : frame σ)
    (h : f.running = false) : (run_end_loop l f).running = false := by
  induction l generalizing f with
  | nil => exact h
  | cons x rest ih =>
    rw [run_end_loop]
    apply ih
    rw [call_end_running, h]
    rfl

/-- Teardown callbacks that do not call `shut_down()` leave `running` as it is. -/
theorem run_end_loop_running_same (l : List (id_t × run_end_func σ)) (f : frame σ)
    (h : ∀ x ∈ l, ∀ r a, (x.2 r a).2 = false) : (run_end_loop l f).running = f.running := by
  induction l generalizing f with
  | nil => rfl
  | cons x rest ih =>
    rw [run_end_loop, ih _ (fun y hy => h y (List.mem_cons_of_mem _ hy)), call_end_running,
      h x (List.mem_cons_self _ _)]
    simp

/-- When the loop of `run` is left through its condition, `running` is false. -/
theorem run_loop_condition_exit (fuel : Nat) (f f1 : frame σ)
    (h : run_loop fuel f = some (f1, true)) : f1.running = false := by
  induction fuel generalizing f with
  | zero =>
    unfold run_loop at h
    by_cases hr : f.running = true
    · simp [hr] at h
    · simp only [hr] at h
      simp only [if_false, Option.some.injEq, Prod.mk.injEq, and_true, Bool.false_eq_true] at h
      rw [← h]
      simpa using hr
  | succ n ih =>
    unfold run_loop at h
    by_cases hr : f.running = true
    · simp only [hr, if_true] at h
      cases hs : (run_step f).2
      · simp [hs] at h
      · simp only [hs] at h
        exact ih _ (by simpa using h)
    · simp only [hr] at h
      simp only [if_false, Option.some.injEq, Prod.mk.injEq, and_true, Bool.false_eq_true] at h
      rw [← h]
      simpa using hr

/-- More fuel does not change the outcome of a loop that has exited. -/
theorem run_loop_more_fuel (fuel extra : Nat) (f : frame σ) (r : frame σ × Bool)
    (h : run_loop fuel f = some r) : run_loop (fuel + extra) f = some r := by
  induction fuel generalizing f with
  | zero =>
    unfold run_loop at h
    by_cases hr : f.running = true
    · simp [hr] at h
    · cases extra with
      | zero => simpa [run_loop, hr] using h
      | succ m =>
        rw [Nat.zero_add]
        unfold run_loop
        simpa [hr] using h
  | succ n ih =>
    rw [Nat.add_right_comm]
    unfold run_loop at h ⊢
    by_cases hr : f.running = true
    · simp only [hr, if_true] at h ⊢
      cases hs : (run_step f).2
      · simpa [hs] using h
      · simp only [hs] at h ⊢
        exact ih _ (by simpa using h)
    · simpa [hr] using h

/-- The part of `run` after the loop: `running` and `start_time` are reset, the result is
decided by `running` after the teardown phase, and nothing else changes after it. -/
theorem run_exit_spec (f : frame σ) :
    (run_exit f).1.running = false ∧ (run_exit f).1.start_time = 0 ∧
    (run_exit f).2 = (if (trigger_run_end (wait_idle f)).running then result.run_aborted
      else result.ok) ∧
    (run_exit f).1.log = (trigger_run_end (wait_idle f)).log := by
  by_cases hr : (trigger_run_end (wait_idle f)).running = true <;> simp [run_exit, hr]

/-! ## A callback failure in a loop step -/

/-- The flag after a callback invocation: `running` stays on only when it was on and the
callback did not call `shut_down()`. -/
theorem call_running (e : event) (func : run_func σ) (f : frame σ) :
    (call e func f).1.running = (f.running && !(func f.running f.app).shut_down) := by
  unfold call shut_down
  dsimp only
  cases h1 : (func f.running f.app).shut_down <;> cases h2 : f.running <;> simp

/-- A one-shot callback that returns failure ends the one-shot loop at once. -/
theorem run_once_loop_cons_failure (c : run_func σ) (rest : List (run_func σ)) (i : Nat)
    (f : frame σ) (h : (c f.running f.app).result = false) :
    run_once_loop (c :: rest) i f = ((call (event.run_once i) c f).1, false) := by
  have h6 := (call_frame (event.run_once i) c f).2.2.2.2.2
  rw [run_once_loop]
  simp [h6, h]

/-- After a one-shot callback that returns success the loop goes on with the next one. -/
theorem run_once_loop_cons_success (c : run_func σ) (rest : List (run_func σ)) (i : Nat)
    (f : frame σ) (h : (c f.running f.app).result = true) :
    run_once_loop (c :: rest) i f
      = run_once_loop rest (i + 1) (call (event.run_once i) c f).1 := by
  have h6 := (call_frame (event.run_once i) c f).2.2.2.2.2
  rw [run_once_loop]
  simp [h6, h]

theorem run_map_loop_cons_failure (x : id_t × run_func σ) (rest : List (id_t × run_func σ))
    (f : frame σ) (h : (x.2 f.running f.app).result = false) :
    run_map_loop (x :: rest) f = ((call (event.run x.1) x.2 f).1, false) := by
  have h6 := (call_frame (event.run x.1) x.2 f).2.2.2.2.2
  rw [run_map_loop]
  simp [h6, h]

theorem run_map_loop_cons_success (x : id_t × run_func σ) (rest : List (id_t × run_func σ))
    (f : frame σ) (h : (x.2 f.running f.app).result = true) :
    run_map_loop (x :: rest) f = run_map_loop rest (call (event.run x.1) x.2 f).1 := by
  have h6 := (call_frame (event.run x.1) x.2 f).2.2.2.2.2
  rw [run_map_loop]
  simp [h6, h]

/-- One-shot callbacks that return success are all invoked and the loop returns true. -/
theorem run_once_loop_all_success (l : List (run_func σ)) (i : Nat) (f : frame σ)
    (h : ∀ c ∈ l, ∀ r a, (c r a).result = true) : (run_once_loop l i f).2 = true := by
  induction l generalizing i f with
  | nil => rfl
  | cons c rest ih =>
    rw [run_once_loop_cons_success c rest i f (h c (List.mem_cons_self _ _) _ _)]
    exact ih _ _ (fun d hd => h d (List.mem_cons_of_mem _ hd))

/-- Steady-state callbacks that return success are all invoked and the loop returns
true. -/
theorem run_map_loop_all_success (l : List (id_t × run_func σ)) (f : frame σ)
    (h : ∀ x ∈ l, ∀ r a, (x.2 r a).result = true) : (run_map_loop l f).2 = true := by
  induction l generalizing f with
  | nil => rfl
  | cons x rest ih =>
    rw [run_map_loop_cons_success x rest f (h x (List.mem_cons_self _ _) _ _)]
    exact ih _ (fun d hd => h d (List.mem_cons_of_mem _ hd))

/-- The one-shot loop over `pre ++ post` when the callbacks of `pre` all returned success:
it goes on with `post` in the state `pre` left. -/
theorem run_once_loop_append (pre post : List (run_func σ)) (i : Nat) (f h : frame σ)
    (hpre : run_once_loop pre i f = (h, true)) :
    run_once_loop (pre ++ post) i f = run_once_loop post (i + pre.length) h := by
  induction pre generalizing i f with
  | nil =>
    simp only [run_once_loop, Prod.mk.injEq, and_true] at hpre
    subst hpre
    rfl
  | cons c rest ih =>
    cases hc : (c f.running f.app).result with
    | false =>
      rw [run_once_loop_cons_failure c rest i f hc] at hpre
      simp at hpre
    | true =>
      rw [run_once_loop_cons_success c rest i f hc] at hpre
      rw [List.cons_append, run_once_loop_cons_success c _ i f hc, ih _ _ hpre]
      simp only [List.length_cons]
      congr 1
      omega

theorem run_map_loop_append (pre post : List (id_t × run_func σ)) (f h : frame σ)
    (hpre : run_map_loop pre f = (h, true)) :
    run_map_loop (pre ++ post) f = run_map_loop post h := by
  induction pre generalizing f with
  | nil =>
    simp only [run_map_loop, Prod.mk.injEq, and_true] at hpre
    subst hpre
    rfl
  | cons x rest ih =>
    cases hc : (x.2 f.running f.app).result with
    | false =>
      rw [run_map_loop_cons_failure x rest f hc] at hpre
      simp at hpre
    | true =>
      rw [run_map_loop_cons_success x rest f hc] at hpre
      rw [List.cons_append, run_map_loop_cons_success x _ f hc, ih _ hpre]

/-- `run_step` when a one-shot callback returns failure: the callbacks queued before it
have been invoked, it is invoked, and the step returns false without invoking anything
after it. -/
theorem run_step_once_failure (g h : frame σ) (pre post : List (run_func σ))
    (c : run_func σ) (hq : g.run_once_list = pre ++ c :: post)
    (hpre : run_once_loop pre 0 (polled g) = (h, true))
    (hc : (c h.running h.app).result = false) :
    run_step g = ((call (event.run_once pre.length) c h).1, false) := by
  have hloop : run_once_loop g.run_once_list 0 (polled g)
      = ((call (event.run_once pre.length) c h).1, false) := by
    rw [hq, run_once_loop_append pre (c :: post) 0 (polled g) h hpre, Nat.zero_add,
      run_once_loop_cons_failure c post _ h hc]
  have hne : g.run_once_list.isEmpty = false := by
    rw [hq]
    cases pre <;> rfl
  unfold run_step
  simp only [hne, Bool.not_false, if_true]
  have hloop' : run_once_loop g.run_once_list 0
      { g with log := g.log ++ [event.handle_events] }
      = ((call (event.run_once pre.length) c h).1, false) := hloop
  rw [hloop']
  simp

/-- `run_step` when every one-shot callback returned success: the queue is emptied and the
steady-state loop runs. -/
theorem run_step_after_once (g h0 : frame σ)
    (honce : run_once_loop g.run_once_list 0 (polled g) = (h0, true)) :
    run_step g = run_map_loop g.run_map { h0 with run_once_list := [] } := by
  obtain ⟨r, st, ol, rm, re, is, a, lg⟩ := g
  cases ol with
  | nil =>
    simp only [polled, run_once_loop, Prod.mk.injEq, and_true] at honce
    subst honce
    simp [run_step]
  | cons c rest =>
    have hm := (run_once_loop_queue (c :: rest) 0
      (polled ⟨r, st, c :: rest, rm, re, is, a, lg⟩)).2
    rw [honce] at hm
    have hm' : h0.run_map = rm := hm
    have honce' : run_once_loop (c :: rest) 0
        { (⟨r, st, c :: rest, rm, re, is, a, lg⟩ : frame σ) with
          log := lg ++ [event.handle_events] } = (h0, true) := honce
    simp only [run_step, List.isEmpty_cons, Bool.not_false, if_true]
    rw [honce']
    simp [hm']

/-- `run_step` when a steady-state callback returns failure. -/
theorem run_step_map_failure (g h0 h : frame σ) (pre post : List (id_t × run_func σ))
    (x : id_t × run_func σ)
    (honce : run_once_loop g.run_once_list 0 (polled g) = (h0, true))
    (hm : g.run_map = pre ++ x :: post)
    (hpre : run_map_loop pre { h0 with run_once_list := [] } = (h, true))
    (hx : (x.2 h.running h.app).result = false) :
    run_step g = ((call (event.run x.1) x.2 h).1, false) := by
  rw [run_step_after_once g h0 honce, hm, run_map_loop_append pre (x :: post) _ h hpre,
    run_map_loop_cons_failure x post h hx]

theorem run_once_loop_end_map (l : List (run_func σ)) (i : Nat) (f : frame σ) :
    (run_once_loop l i f).1.run_end_map = f.run_end_map := by
  induction l generalizing i f with
  | nil => rfl
  | cons c rest ih =>
    have h3 := (call_frame (event.run_once i) c f).2.2.1
    cases hc : (c f.running f.app).result with
    | false => rw [run_once_loop_cons_failure c rest i f hc]; exact h3
    | true => rw [run_once_loop_cons_success c rest i f hc, ih]; exact h3

theorem run_map_loop_end_map (l : List (id_t × run_func σ)) (f : frame σ) :
    (run_map_loop l f).1.run_end_map = f.run_end_map := by
  induction l generalizing f with
  | nil => rfl
  | cons x rest ih =>
    have h3 := (call_frame (event.run x.1) x.2 f).2.2.1
    cases hc : (x.2 f.running f.app).result with
    | false => rw [run_map_loop_cons_failure x rest f hc]; exact h3
    | true => rw [run_map_loop_cons_success x rest f hc, ih]; exact h3

theorem run_step_end_map (f : frame σ) : (run_step f).1.run_end_map = f.run_end_map := by
  cases ho : run_once_loop f.run_once_list 0 (polled f) with
  | mk h0 ok =>
    have he : h0.run_end_map = f.run_end_map := by
      have := run_once_loop_end_map f.run_once_list 0 (polled f)
      rw [ho] at this
      exact this
    cases ok with
    | true =>
      rw [run_step_after_once f h0 ho, run_map_loop_end_map]
      exact he
    | false =>
      have ho' : run_once_loop f.run_once_list 0
          { f with log := f.log ++ [event.handle_events] } = (h0, false) := ho
      have hne : f.run_once_list.isEmpty = false := by
        cases hq : f.run_once_list with
        | nil =>
          rw [hq] at ho'
          simp [run_once_loop] at ho'
        | cons c rest => rfl
      unfold run_step
      simp only [hne, Bool.not_false, if_true, ho']
      exact he

theorem loop_state_end_map (k : Nat) (e g : frame σ) (h : loop_state k e = some g) :
    g.run_end_map = e.run_end_map := by
  induction k generalizing e with
  | zero =>
    simp only [loop_state, Option.some.injEq] at h
    rw [← h]
  | succ n ih =>
    rw [loop_state] at h
    by_cases hr : e.running = true
    · cases hs : (run_step e).2
      · simp [hr, hs] at h
      · simp only [hr, hs, if_true] at h
        rw [ih _ h, run_step_end_map]
    · simp [hr] at h

/-- A loop that reaches a loop test with `running` false is left there, through its
condition. -/
theorem loop_state_condition_exit (k : Nat) (e g : frame σ) (h : loop_state k e = some g)
    (hg : g.running = false) (fuel : Nat) (hfuel : k ≤ fuel) :
    run_loop fuel e = some (g, true) := by
  induction k generalizing e fuel with
  | zero =>
    simp only [loop_state, Option.some.injEq] at h
    subst h
    cases fuel <;> simp [run_loop, hg]
  | succ n ih =>
    obtain ⟨m, rfl⟩ : ∃ m, fuel = m + 1 := ⟨fuel - 1, by omega⟩
    rw [loop_state] at h
    by_cases hr : e.running = true
    · cases hs : (run_step e).2
      · simp [hr, hs] at h
      · simp only [hr, hs, if_true] at h
        rw [run_loop]
        simp only [hr, hs, if_true, Bool.not_true, Bool.false_eq_true, if_false]
        exact ih _ h m (by omega)
    · simp [hr] at h

/-- A loop that reaches a loop test with `running` true and whose next step returns false
is left through `break` in the state that step left. -/
theorem loop_state_break (k : Nat) (e g s : frame σ) (h : loop_state k e = some g)
    (hg : g.running = true) (hs : run_step g = (s, false)) (fuel : Nat)
    (hfuel : k + 1 ≤ fuel) : run_loop fuel e = some (s, false) := by
  induction k generalizing e fuel with
  | zero =>
    obtain ⟨m, rfl⟩ : ∃ m, fuel = m + 1 := ⟨fuel - 1, by omega⟩
    simp only [loop_state, Option.some.injEq] at h
    subst h
    rw [run_loop]
    simp [hg, hs]
  | succ n ih =>
    obtain ⟨m, rfl⟩ : ∃ m, fuel = m + 1 := ⟨fuel - 1, by omega⟩
    rw [loop_state] at h
    by_cases hr : e.running = true
    · cases hs' : (run_step e).2
      · simp [hr, hs'] at h
      · simp only [hr, hs', if_true] at h
        rw [run_loop]
        simp only [hr, hs', if_true, Bool.not_true, Bool.false_eq_true, if_false]
        exact ih _ h m (by omega)
    · simp [hr] at h

/-- A step that returns true in a running frame leads to the next loop test. -/
theorem loop_state_succ (k : Nat) (e g s : frame σ) (h : loop_state k e = some g)
    (hg : g.running = true) (hs : run_step g = (s, true)) :
    loop_state (k + 1) e = some s := by
  induction k generalizing e with
  | zero =>
    simp only [loop_state, Option.some.injEq] at h
    subst h
    simp [loop_state, hg, hs]
  | succ n ih =>
    rw [loop_state] at h
    by_cases hr : e.running = true
    · cases hs' : (run_step e).2
      · simp [hr, hs'] at h
      · simp only [hr, hs', if_true] at h
        rw [loop_state]
        simp only [hr, hs', if_true]
        exact ih _ h
    · simp [hr] at h

/-- `run` on an idle frame whose loop exits: the state at loop exit goes through
`run_exit`. -/
theorem run_of_loop (fuel now : Nat) (f f1 : frame σ) (ok : Bool) (h : f.running = false)
    (hl : run_loop fuel { f with running := true, start_time := now } = some (f1, ok)) :
    run fuel now f = some (run_exit f1) := by
  unfold run
  simp [h, hl]

/-- The result code chosen after the loop, from the state `s` at loop exit. -/
theorem run_exit_result (s : frame σ) :
    (run_exit s).1.running = false ∧ (run_exit s).1.start_time = 0 ∧
    ((run_exit s).2 = result.run_aborted ↔
      (trigger_run_end (wait_idle s)).running = true) ∧
    (s.running = true → (∀ x ∈ s.run_end_map, ∀ r a, (x.2 r a).2 = false) →
      (run_exit s).2 = result.run_aborted) ∧
    (s.running = false → (run_exit s).2 = result.ok) := by
  obtain ⟨e1, e2, e3, -⟩ := run_exit_spec s
  refine ⟨e1, e2, ?_, ?_, ?_⟩
  · rw [e3]
    cases (trigger_run_end (wait_idle s)).running <;> simp
  · intro hs hx
    have : (trigger_run_end (wait_idle s)).running = s.running :=
      run_end_loop_running_same _ _ (fun x hx' => hx x (List.mem_reverse.mp hx'))
    rw [e3, this, hs]
    rfl
  · intro hs
    have : (trigger_run_end (wait_idle s)).running = false :=
      run_end_loop_running_false _ _ hs
    rw [e3, this]
    rfl

/-- What `run` returns once a callback `c`, invoked in state `h` of the step that starts
at the loop test `g`, has made that step return false. -/
theorem run_after_failure (fuel now k : Nat) (f g h : frame σ) (e : event) (c : run_func σ)
    (hidle : f.running = false)
    (hreach : loop_state k { f with running := true, start_time := now } = some g)
    (hfuel : k + 1 ≤ fuel) (hg : g.running = true)
    (hstep : run_step g = ((call e c h).1, false))
    (hend : h.run_end_map = f.run_end_map) :
    ∃ f2 res, run fuel now f = some (f2, res) ∧ (f2, res) = run_exit (call e c h).1 ∧
      f2.running = false ∧ f2.start_time = 0 ∧
      (res = result.run_aborted ↔
        (trigger_run_end (wait_idle (call e c h).1)).running = true) ∧
      (h.running = true → (c h.running h.app).shut_down = false →
        (∀ x ∈ f.run_end_map, ∀ r a, (x.2 r a).2 = false) → res = result.run_aborted) ∧
      (h.running = false ∨ (c h.running h.app).shut_down = true → res = result.ok) := by
  have hl := loop_state_break k _ g _ hreach hg hstep fuel hfuel
  have hrun := run_of_loop fuel now f _ false hidle hl
  obtain ⟨r1, r2, r3, r4, r5⟩ := run_exit_result (call e c h).1
  have hce : (call e c h).1.run_end_map = f.run_end_map := by
    rw [(call_frame e c h).2.2.1, hend]
  refine ⟨_, _, hrun, rfl, r1, r2, r3, ?_, ?_⟩
  · intro hh hc hx
    apply r4
    · rw [call_running, hc, hh]
      rfl
    · rw [hce]
      exact hx
  · intro hor
    apply r5
    rw [call_running]
    rcases hor with hh | hc
    · rw [hh]
      rfl
    · rw [hc]
      simp

/-- C2 (as amended): `run()` entered on an idle frame, at the loop test `g` reached after
`k` loop steps without a failure. If `running` is false there (a `shut_down()` with no
callback failure), `run()` returns `Ok`. If `running` is true and a one-shot callback,
or a steady-state callback, returns failure when it is invoked (in the state `h` left by
the callbacks of the step before it, which all returned success), the step invokes nothing
after it and ends the loop, and `run()` returns with `running` false and `start_time`
reset: `RunAborted` exactly when `running` is still true after the teardown phase, so
`RunAborted` when `running` was true at the invocation, the callback did not call
`shut_down()` and no teardown callback does, and `Ok` when `shut_down()` had been called
in the step or is called by the failing callback. If every callback of the step returns
success, the loop goes on to its next test. -/
theorem run_callback_failure_result (fuel now k : Nat) (f g : frame σ)
    (hidle : f.running = false)
    (hreach : loop_state k { f with running := true, start_time := now } = some g)
    (hfuel : k + 1 ≤ fuel) :
    (g.running = false →
      ∃ f2, run fuel now f = some (f2, result.ok) ∧ (f2, result.ok) = run_exit g ∧
        f2.running = false ∧ f2.start_time = 0) ∧
    (g.running = true →
      ∀ (pre post : List (run_func σ)) (c : run_func σ) (h : frame σ),
        g.run_once_list = pre ++ c :: post →
        run_once_loop pre 0 (polled g) = (h, true) →
        (c h.running h.app).result = false →
        ∃ f2 res, run fuel now f = some (f2, res) ∧
          (f2, res) = run_exit (call (event.run_once pre.length) c h).1 ∧
          f2.running = false ∧ f2.start_time = 0 ∧
          (res = result.run_aborted ↔ (trigger_run_end (wait_idle
            (call (event.run_once pre.length) c h).1)).running = true) ∧
          (h.running = true → (c h.running h.app).shut_down = false →
            (∀ x ∈ f.run_end_map, ∀ r a, (x.2 r a).2 = false) →
            res = result.run_aborted) ∧
          (h.running = false ∨ (c h.running h.app).shut_down = true → res = result.ok)) ∧
    (g.running = true →
      ∀ (h0 h : frame σ) (pre post : List (id_t × run_func σ)) (x : id_t × run_func σ),
        run_once_loop g.run_once_list 0 (polled g) = (h0, true) →
        g.run_map = pre ++ x :: post →
        run_map_loop pre { h0 with run_once_list := [] } = (h, true) →
        (x.2 h.running h.app).result = false →
        ∃ f2 res, run fuel now f = some (f2, res) ∧
          (f2, res) = run_exit (call (event.run x.1) x.2 h).1 ∧
          f2.running = false ∧ f2.start_time = 0 ∧
          (res = result.run_aborted ↔ (trigger_run_end (wait_idle
            (call (event.run x.1) x.2 h).1)).running = true) ∧
          (h.running = true → (x.2 h.running h.app).shut_down = false →
            (∀ y ∈ f.run_end_map, ∀ r a, (y.2 r a).2 = false) →
            res = result.run_aborted) ∧
          (h.running = false ∨ (x.2 h.running h.app).shut_down = true →
            res = result.ok)) ∧
    (g.running = true →
      ∀ (h0 h1 : frame σ),
        run_once_loop g.run_once_list 0 (polled g) = (h0, true) →
        run_map_loop g.run_map { h0 with run_once_list := [] } = (h1, true) →
        loop_state (k + 1) { f with running := true, start_time := now } = some h1) := by
  have hge : g.run_end_map = f.run_end_map :=
    loop_state_end_map k { f with running := true, start_time := now } g hreach
  refine ⟨?_, ?_, ?_, ?_⟩
  · intro hg
    have hl := loop_state_condition_exit k _ g hreach hg fuel (by omega)
    have hrun := run_of_loop fuel now f g true hidle hl
    obtain ⟨r1, r2, -, -, r5⟩ := run_exit_result g
    refine ⟨(run_exit g).1, ?_, ?_, r1, r2⟩
    · rw [hrun]
      congr 1
      exact Prod.ext rfl (r5 hg)
    · exact Prod.ext rfl (r5 hg).symm
  · intro hg pre post c h hq hpre hc
    have hstep := run_step_once_failure g h pre post c hq hpre hc
    have hend : h.run_end_map = f.run_end_map := by
      have := run_once_loop_end_map pre 0 (polled g)
      rw [hpre] at this
      exact this.trans hge
    exact run_after_failure fuel now k f g h _ c hidle hreach hfuel hg hstep hend
  · intro hg h0 h pre post x honce hm hpre hx
    have hstep := run_step_map_failure g h0 h pre post x honce hm hpre hx
    have hend0 : h0.run_end_map = f.run_end_map := by
      have := run_once_loop_end_map g.run_once_list 0 (polled g)
      rw [honce] at this
      exact this.trans hge
    have hend : h.run_end_map = f.run_end_map := by
      have := run_map_loop_end_map pre { h0 with run_once_list := [] }
      rw [hpre] at this
      exact this.trans hend0
    exact run_after_failure fuel now k f g h _ x.2 hidle hreach hfuel hg hstep hend
  · intro hg h0 h1 honce hmap
    have hstep : run_step g = (h1, true) := by
      rw [run_step_after_once g h0 honce, hmap]
    exact loop_state_succ k _ g h1 hreach hg hstep

/-- C2 on a frame whose only callback succeeds once and then fails, never calling
`shut_down()`: the first step leads to the second loop test, the failure in the second
step ends the loop, and `run()` returns `RunAborted` after two invocations. -/
theorem run_callback_failure_result_witness :
    (run 2 7 (add_run (fresh 0) (counting 1)).1).map (fun r => (r.2, r.1.log))
      = some (result.run_aborted,
          [event.handle_events, event.run 1, event.handle_events, event.run 1,
           event.wait_idle]) := by
  obtain ⟨f2, res, hrun, hexit, -, -, -, habort, -⟩ :=
    (run_callback_failure_result 2 7 1 (add_run (fresh 0) (counting 1)).1 _ rfl rfl
      (le_refl 2)).2.2.1 rfl _ _ [] [] (1, counting 1) rfl rfl rfl rfl
  rw [hrun, habort rfl rfl (by intro x hx; cases hx)] at *
  have hlog : f2.log = [event.handle_events, event.run 1, event.handle_events,
      event.run 1, event.wait_idle] := by
    have := congrArg (fun p => p.1.log) hexit
    exact this
  simp [hlog]

/-- C2, as stated, fails: the only steady-state callback calls `shut_down()` and then
returns failure. `run_step` reports the failure, the loop is left through `break`, and
`run()` returns `Ok` because `running` is already false. -/
theorem run_ok_after_failure :
    (run_step { (add_run (fresh ()) (fun _ u => ⟨u, true, false⟩)).1 with running := true }).2
      = false ∧
    (run 1 7 (add_run (fresh ()) (fun _ u => ⟨u, true, false⟩)).1).map Prod.snd
      = some result.ok := by
  decide

/-! ## The loop with one steady-state callback -/

/-- A loop step of a frame with an empty one-shot queue and one steady-state callback that
does not call `shut_down()`. -/
theorem run_step_single (f : frame σ) (k : id_t) (cb : run_func σ)
    (hrun : f.running = true) (honce : f.run_once_list = []) (hmap : f.run_map = [(k, cb)])
    (hshut : (cb true f.app).shut_down = false) :
    run_step f = ({ f with app := (cb true f.app).app,
                           log := f.log ++ [event.handle_events, event.run k] },
                  (cb true f.app).result) := by
  unfold run_step
  simp only [honce, hmap, List.isEmpty_nil, Bool.not_true, Bool.false_eq_true, if_false]
  unfold run_map_loop call
  simp only [hrun, hshut, Bool.false_eq_true, if_false]
  cases (cb true f.app).result <;> simp [run_map_loop]

theorem run_loop_single (n : Nat) (f : frame σ) (k : id_t) (cb : run_func σ)
    (hrun : f.running = true) (honce : f.run_once_list = []) (hmap : f.run_map = [(k, cb)])
    (hsucc : ∀ i < n, (cb true (app_after cb i f.app)).result = true ∧
      (cb true (app_after cb i f.app)).shut_down = false)
    (hfail : (cb true (app_after cb n f.app)).result = false ∧
      (cb true (app_after cb n f.app)).shut_down = false)
    (fuel : Nat) (hfuel : n + 1 ≤ fuel) :
    run_loop fuel f = some ({ f with app := app_after cb (n + 1) f.app,
                                     log := f.log ++ steps_log k (n + 1) }, false) := by
  induction n generalizing f fuel with
  | zero =>
    obtain ⟨m, rfl⟩ : ∃ m, fuel = m + 1 := ⟨fuel - 1, by omega⟩
    unfold run_loop
    rw [if_pos hrun, run_step_single f k cb hrun honce hmap hfail.2]
    have h1 : (cb true f.app).result = false := hfail.1
    simp [h1, app_after, steps_log]
  | succ n ih =>
    obtain ⟨m, rfl⟩ : ∃ m, fuel = m + 1 := ⟨fuel - 1, by omega⟩
    have h0 := hsucc 0 (Nat.succ_pos n)
    unfold run_loop
    rw [if_pos hrun, run_step_single f k cb hrun honce hmap h0.2]
    have h1 : (cb true f.app).result = true := h0.1
    simp only [h1, Bool.not_true, Bool.false_eq_true, if_false]
    have hnext := ih { f with app := (cb true f.app).app,
                              log := f.log ++ [event.handle_events, event.run k] }
      hrun honce hmap (fun i hi => hsucc (i + 1) (Nat.succ_lt_succ hi)) hfail m (by omega)
    rw [hnext]
    simp [app_after, steps_log]

/-- C10 (as amended): a frame that is idle, has an empty one-shot queue and exactly one
steady-state callback, which returns success on its first `n` invocations and failure on
the next and does not call `shut_down()`, and whose teardown callbacks do not call
`shut_down()` either. Then `run()` terminates within `n + 1` loop steps: it polls the
events and invokes the callback `n + 1` times, then drains once, then invokes every
teardown callback once (in descending key order), and returns `RunAborted` with
`running` false and `start_time` reset. -/
theorem run_single_callback_aborts (n now : Nat) (f : frame σ) (k : id_t) (cb : run_func σ)
    (hidle : f.running = false) (honce : f.run_once_list = [])
    (hmap : f.run_map = [(k, cb)])
    (hsucc : ∀ i < n, (cb true (app_after cb i f.app)).result = true ∧
      (cb true (app_after cb i f.app)).shut_down = false)
    (hfail : (cb true (app_after cb n f.app)).result = false ∧
      (cb true (app_after cb n f.app)).shut_down = false)
    (hend : ∀ x ∈ f.run_end_map, ∀ r a, (x.2 r a).2 = false)
    (fuel : Nat) (hfuel : n + 1 ≤ fuel) :
    ∃ f2, run fuel now f = some (f2, result.run_aborted) ∧ f2.running = false ∧
      f2.start_time = 0 ∧
      f2.log = f.log ++ steps_log k (n + 1) ++ [event.wait_idle] ++
        (map_keys f.run_end_map).reverse.map event.run_end := by
  have hl := run_loop_single n { f with running := true, start_time := now } k cb rfl honce
    hmap hsucc hfail fuel hfuel
  have hrun : run fuel now f = some (run_exit
      { f with running := true, start_time := now, app := app_after cb (n + 1) f.app,
               log := f.log ++ steps_log k (n + 1) }) := by
    unfold run
    rw [if_neg (by simp [hidle]), hl]
  obtain ⟨e1, e2, e3, e4⟩ := run_exit_spec
      { f with running := true, start_time := now, app := app_after cb (n + 1) f.app,
               log := f.log ++ steps_log k (n + 1) }
  have hr : (trigger_run_end (wait_idle
      { f with running := true, start_time := now, app := app_after cb (n + 1) f.app,
               log := f.log ++ steps_log k (n + 1) })).running = true := by
    exact run_end_loop_running_same _ _ (fun x hx => hend x (List.mem_reverse.mp hx))
  refine ⟨_, ?_, e1, e2, ?_⟩
  · rw [hrun]
    congr 1
    exact Prod.ext rfl (by rw [e3, hr]; rfl)
  · rw [e4]
    unfold trigger_run_end
    rw [run_end_loop_log]
    simp [wait_idle, map_keys, List.map_reverse]

/-- C10, the case `n = 3` of the spec: the counting callback and one teardown callback that
only sets the application data. The loop runs four steps, then the drain, then the
teardown callback, and the result is `RunAborted`. -/
theorem run_single_callback_aborts_witness :
    ∃ f2, run 4 9 (add_run_end (add_run (fresh 0) (counting 3)).1 (fun _ _ => (0, false))).1
        = some (f2, result.run_aborted) ∧ f2.running = false ∧ f2.start_time = 0 ∧
      f2.log = [event.handle_events, event.run 1, event.handle_events, event.run 1,
        event.handle_events, event.run 1, event.handle_events, event.run 1,
        event.wait_idle, event.run_end 2] :=
  run_single_callback_aborts 3 9
    (add_run_end (add_run (fresh 0) (counting 3)).1 (fun _ _ => (0, false))).1 1 (counting 3)
    rfl rfl rfl (by decide) (by decide)
    (by
      intro x hx r a
      have hx' : x = (2, fun _ _ => (0, false)) := List.mem_singleton.mp hx
      rw [hx'])
    4 (le_refl 4)

/-- C10, as stated, fails when a teardown callback calls `shut_down()`: with the counting
callback for `n = 3` the loop still runs four steps and the teardown callback runs after
the drain, but `running` is false when the result is chosen, and `run()` returns `Ok`. -/
theorem run_single_callback_ok_after_teardown_shut_down :
    (run 4 9 (add_run_end (add_run (fresh 0) (counting 3)).1 (fun _ a => (a, true))).1).map
        (fun r => (r.2, r.1.log))
      = some (result.ok,
          [event.handle_events, event.run 1, event.handle_events, event.run 1,
           event.handle_events, event.run 1, event.handle_events, event.run 1,
           event.wait_idle, event.run_end 2]) := by
  decide

/-- C8: `run()` on a frame that is running returns `StillRunning` and changes nothing: the
flags, the registries, the application data and the log of effects are as before. -/
theorem run_still_running (fuel now : Nat) (f : frame σ) (h : f.running = true) :
    run fuel now f = some (f, result.still_running) := by
  unfold run
  rw [if_pos h]

/-- C8 on a running frame with start time 5 and one steady-state callback. -/
theorem run_still_running_witness :
    run 0 9 { (add_run (fresh 0) (counting 3)).1 with running := true, start_time := 5 }
      = some ({ (add_run (fresh 0) (counting 3)).1 with running := true, start_time := 5 },
          result.still_running) :=
  run_still_running 0 9 _ rfl

/-- C7, evaluated on a queue of a succeeding and a failing one-shot callback: `run_step`
returns false with both still queued, and a second `run_step` invokes the first one
again. -/
theorem run_step_keeps_queue_on_failure :
    (run_step { fresh () with
        run_once_list := [fun _ u => ⟨u, false, true⟩, fun _ u => ⟨u, false, false⟩] }).2
      = false ∧
    (run_step { fresh () with
        run_once_list := [fun _ u => ⟨u, false, true⟩, fun _ u => ⟨u, false, false⟩]
        }).1.run_once_list.length = 2 ∧
    (run_step (run_step { fresh () with
        run_once_list := [fun _ u => ⟨u, false, true⟩, fun _ u => ⟨u, false, false⟩] }).1).1.log
      = [event.handle_events, event.run_once 0, event.run_once 1,
         event.handle_events, event.run_once 0, event.run_once 1] := by
  decide

/-- C9: in a frame whose registries share no identifier, `remove(id)` returns true exactly
when `id` is a key of the steady-state or of the teardown registry; when it returns false
the frame, registries and allocator included, is unchanged; and for a registered `id` a
first `remove(id)` returns true and a second one false. -/
theorem remove_spec (f : frame σ) (k : id_t)
    (hd : ∀ j ∈ map_keys f.run_map, j ∉ map_keys f.run_end_map) :
    ((f.remove k).2 = true ↔ k ∈ map_keys f.run_map ∨ k ∈ map_keys f.run_end_map) ∧
    ((f.remove k).2 = false → (f.remove k).1 = f) ∧
    (k ∈ map_keys f.run_map ∨ k ∈ map_keys f.run_end_map →
      (f.remove k).2 = true ∧ ((f.remove k).1.remove k).2 = false) := by
  rcases remove_cases f k with ⟨h1, he⟩ | ⟨h1, h2, he⟩ | ⟨h1, h2, he⟩
  · have hno : k ∉ map_keys (map_erase k f.run_map) := fun hm =>
      ((mem_keys_erase _ _ _).mp hm).2 rfl
    rcases remove_cases (f.remove k).1 k with ⟨g1, _⟩ | ⟨_, g2, _⟩ | ⟨_, _, ge⟩
    · rw [he] at g1
      exact absurd g1 hno
    · rw [he] at g2
      exact absurd g2 (hd k h1)
    · rw [ge, he]
      exact ⟨by simp [h1], by simp, fun _ => ⟨rfl, rfl⟩⟩
  · have hno : k ∉ map_keys (map_erase k f.run_end_map) := fun hm =>
      ((mem_keys_erase _ _ _).mp hm).2 rfl
    rcases remove_cases (f.remove k).1 k with ⟨g1, _⟩ | ⟨_, g2, _⟩ | ⟨_, _, ge⟩
    · rw [he] at g1
      exact absurd g1 h1
    · rw [he] at g2
      exact absurd g2 hno
    · rw [ge, he]
      exact ⟨by simp [h2], by simp, fun _ => ⟨rfl, rfl⟩⟩
  · rw [he]
    refine ⟨by simp [h1, h2], fun _ => rfl, ?_⟩
    rintro (h | h)
    · exact absurd h h1
    · exact absurd h h2

/-- C9 on a frame with the steady-state callback 1 and the teardown callback 2: removing
2 twice gives true, then false; removing the unknown 7 gives false. -/
theorem remove_spec_witness :
    ((add_run_end (add_run (fresh 0) (counting 3)).1 (fun _ a => (a, false))).1.remove 2).2
      = true ∧
    (((add_run_end (add_run (fresh 0) (counting 3)).1 (fun _ a => (a, false))).1.remove 2).1.remove
      2).2 = false ∧
    ((add_run_end (add_run (fresh 0) (counting 3)).1 (fun _ a => (a, false))).1.remove 7).2
      = false :=
  ⟨((remove_spec (add_run_end (add_run (fresh 0) (counting 3)).1 (fun _ a => (a, false))).1 2
      (by decide)).2.2 (by decide)).1,
   ((remove_spec (add_run_end (add_run (fresh 0) (counting 3)).1 (fun _ a => (a, false))).1 2
      (by decide)).2.2 (by decide)).2,
   by decide⟩

end frame

/-! ## Capability check -/

theorem check_layers_iff (props : List VkLayerProperties) (names : List name) :
    check_layers props names = true ↔ ∀ l ∈ names, ∃ p ∈ props, p.layerName = l := by
  induction names with
  | nil => simp [check_layers]
  | cons n rest ih =>
    unfold check_layers
    cases hf : props.find? (fun extProp => n == extProp.layerName) with
    | none =>
      simp only [Bool.false_eq_true, false_iff]
      intro hall
      obtain ⟨p, hp, hn⟩ := hall n (List.mem_cons_self _ _)
      have := List.find?_eq_none.mp hf p hp
      simp [hn] at this
    | some q =>
      simp only [ih]
      have hq := List.find?_some hf
      have hmem := List.mem_of_find?_eq_some hf
      constructor
      · intro hall l hl
        rcases List.mem_cons.mp hl with rfl | hl
        · exact ⟨q, hmem, (by simpa using hq : _ = _).symm⟩
        · exact hall l hl
      · intro hall l hl
        exact hall l (List.mem_cons_of_mem _ hl)

theorem check_extensions_iff (props : List VkExtensionProperties) (names : List name) :
    check_extensions props names = true ↔ ∀ e ∈ names, ∃ p ∈ props, p.extensionName = e := by
  induction names with
  | nil => simp [check_extensions]
  | cons n rest ih =>
    unfold check_extensions
    cases hf : props.find? (fun extProp => n == extProp.extensionName) with
    | none =>
      simp only [Bool.false_eq_true, false_iff]
      intro hall
      obtain ⟨p, hp, hn⟩ := hall n (List.mem_cons_self _ _)
      have := List.find?_eq_none.mp hf p hp
      simp [hn] at this
    | some q =>
      simp only [ih]
      have hq := List.find?_some hf
      have hmem := List.mem_of_find?_eq_some hf
      constructor
      · intro hall l hl
        rcases List.mem_cons.mp hl with rfl | hl
        · exact ⟨q, hmem, (by simpa using hq : _ = _).symm⟩
        · exact hall l hl
      · intro hall l hl
        exact hall l (List.mem_cons_of_mem _ hl)

/-- Every list of layers is the answer of `enumerate_layer_properties` for some backend
reply: the one that reports its length and stores its elements. -/
theorem enumerate_layer_properties_any (b : backend) (l : List VkLayerProperties) :
    enumerate_layer_properties { b with layer_properties := ⟨true, l.length, true, l⟩ } = l := by
  simp [enumerate_layer_properties, enumeration.buffer]

theorem enumerate_extension_properties_any (b : backend) (l : List VkExtensionProperties) :
    enumerate_extension_properties
      { b with extension_properties := ⟨true, l.length, true, l⟩ } = l := by
  simp [enumerate_extension_properties, enumeration.buffer]

/-- C3: `check(param)` returns true exactly when every requested layer name equals the
name of some enumerated layer and every requested extension name equals the name of
some enumerated extension. -/
theorem check_iff_requested_available (b : backend) (param : create_param) :
    check b param = true ↔
      (∀ l ∈ param.layers, ∃ p ∈ enumerate_layer_properties b, p.layerName = l) ∧
      (∀ e ∈ param.extensions,
        ∃ p ∈ enumerate_extension_properties b, p.extensionName = e) := by
  rw [← check_layers_iff, ← check_extensions_iff]
  cases h1 : check_layers (enumerate_layer_properties b) param.layers <;>
    cases h2 : check_extensions (enumerate_extension_properties b) param.extensions <;>
    simp [check, h1, h2]

/-! ## Instance life cycle -/

namespace Instance

/-- `destroy` on a live connection removes the bridge and the connection and leaves the
catalog as it is. -/
theorem destroy_live (i : Instance) (h : i.vk_instance ≠ none) :
    (destroy i).vk_instance = none ∧ (destroy i).physical_devices = i.physical_devices ∧
    (i.debug.utils = true → (destroy i).debug_messenger = none) := by
  have hn : i.vk_instance.isNone = false := by
    cases hv : i.vk_instance with
    | none => exact absurd hv h
    | some x => rfl
  unfold destroy destroy_validation_report
  simp only [hn, Bool.false_eq_true, if_false]
  cases hu : i.debug.utils <;> cases hm : i.debug_messenger <;> simp [hm]

/-- `destroy` on a null connection makes no backend call and empties the catalog. -/
theorem destroy_null (i : Instance) (h : i.vk_instance = none) :
    destroy i = { i with physical_devices := [] } := by
  unfold destroy
  simp [h]

/-- C4 (as amended): when `create` returns false, either the negotiation or the creation
of the connection failed, and then connection handle, bridge handle and catalog are what
they were before the call (a new instance stays uninitialised); or the connection `h`
was created and is kept, with the bridge handle as before, and either the enumeration of
the physical devices failed and the catalog is empty, or the installation of the bridge
failed and the catalog holds the enumerated devices. Nothing is rolled back. -/
theorem create_failure_state (b : backend) (i : Instance) (param : create_param)
    (d : debug_config) (inf : app_info) (hf : (create b i param d inf).2.2 = false) :
    ((check b (augment d param) = false ∨
        b.vkCreateInstance (create_info b inf (augment d param)) = none) ∧
      (create b i param d inf).1.vk_instance = i.vk_instance ∧
      (create b i param d inf).1.debug_messenger = i.debug_messenger ∧
      (create b i param d inf).1.physical_devices = i.physical_devices) ∨
    (∃ h, check b (augment d param) = true ∧
      b.vkCreateInstance (create_info b inf (augment d param)) = some h ∧
      (create b i param d inf).1.vk_instance = some h ∧
      (create b i param d inf).1.debug_messenger = i.debug_messenger ∧
      ((((b.physical_devices (some h)).count_ok = false ∨
          (b.physical_devices (some h)).fill_ok = false) ∧
          (create b i param d inf).1.physical_devices = []) ∨
       ((b.physical_devices (some h)).count_ok = true ∧
          (b.physical_devices (some h)).fill_ok = true ∧ d.utils = true ∧
          b.vkCreateDebugUtilsMessengerEXT (some h) ⟨d.verbose⟩ = none ∧
          (create b i param d inf).1.physical_devices =
            ((b.physical_devices (some h)).buffer 0).map physical_device.mk))) := by
  cases hc : check b (augment d param) with
  | false =>
    left
    simp [create, check_debug, hc]
  | true =>
    cases hv : b.vkCreateInstance (create_info b inf (augment d param)) with
    | none =>
      left
      simp [create, check_debug, hc, hv]
    | some h =>
      right
      refine ⟨h, rfl, rfl, ?_⟩
      cases h1 : (b.physical_devices (some h)).count_ok with
      | false => simp [create, check_debug, hc, hv, enumerate_physical_devices, h1]
      | true =>
        cases h2 : (b.physical_devices (some h)).fill_ok with
        | false => simp [create, check_debug, hc, hv, enumerate_physical_devices, h1, h2]
        | true =>
          cases h3 : d.utils with
          | false =>
            simp [create, check_debug, hc, hv, enumerate_physical_devices, h1, h2, h3] at hf
          | true =>
            cases h4 : b.vkCreateDebugUtilsMessengerEXT (some h) ⟨d.verbose⟩ with
            | none =>
              simp [create, check_debug, hc, hv, enumerate_physical_devices, h1, h2, h3,
                create_validation_report, h4]
            | some m =>
              simp [create, check_debug, hc, hv, enumerate_physical_devices, h1, h2, h3,
                create_validation_report, h4] at hf

/-- C4 on a new instance and a backend that refuses the connection: `create` fails and
the instance is still uninitialised. -/
theorem create_failure_state_witness :
    (create { sample_backend with vkCreateInstance := fun _ => none } fresh ⟨["L"], []⟩
        ⟨false, false, false, false⟩ sample_info).2.2 = false ∧
    (create { sample_backend with vkCreateInstance := fun _ => none } fresh ⟨["L"], []⟩
        ⟨false, false, false, false⟩ sample_info).1.vk_instance = none ∧
    (create { sample_backend with vkCreateInstance := fun _ => none } fresh ⟨["L"], []⟩
        ⟨false, false, false, false⟩ sample_info).1.debug_messenger = none ∧
    (create { sample_backend with vkCreateInstance := fun _ => none } fresh ⟨["L"], []⟩
        ⟨false, false, false, false⟩ sample_info).1.physical_devices = [] := by
  refine ⟨by decide, ?_⟩
  rcases create_failure_state { sample_backend with vkCreateInstance := fun _ => none } fresh
    ⟨["L"], []⟩ ⟨false, false, false, false⟩ sample_info (by decide) with ⟨_, h⟩ | ⟨h, _, hv, _⟩
  · exact h
  · cases hv

/-- C4, as stated, fails: the backend creates the connection 7 and then fails the count
query of the device enumeration. `create` returns false and the connection handle is
still 7; after a failed bridge installation the catalog is populated as well. -/
theorem create_failure_keeps_connection :
    (create { sample_backend with physical_devices := fun _ => ⟨false, 0, false, []⟩ } fresh
        ⟨["L"], []⟩ ⟨false, false, false, false⟩ sample_info).2.2 = false ∧
    (create { sample_backend with physical_devices := fun _ => ⟨false, 0, false, []⟩ } fresh
        ⟨["L"], []⟩ ⟨false, false, false, false⟩ sample_info).1.vk_instance = some 7 ∧
    (create { sample_backend with vkCreateDebugUtilsMessengerEXT := fun _ _ => none } fresh
        ⟨["L"], []⟩ ⟨false, false, false, true⟩ sample_info).2.2 = false ∧
    (create { sample_backend with vkCreateDebugUtilsMessengerEXT := fun _ _ => none } fresh
        ⟨["L"], []⟩ ⟨false, false, false, true⟩ sample_info).1.physical_devices
      = [⟨11⟩, ⟨12⟩] := by
  decide

/-- C5, evaluated after a successful `create` that found the devices 11 and 12:
`destroy` releases the connection but the catalog still holds both devices. -/
theorem destroy_keeps_catalog :
    (create sample_backend fresh ⟨["L"], []⟩ ⟨false, false, false, true⟩ sample_info).2.2
      = true ∧
    (destroy (create sample_backend fresh ⟨["L"], []⟩ ⟨false, false, false, true⟩
      sample_info).1).vk_instance = none ∧
    (destroy (create sample_backend fresh ⟨["L"], []⟩ ⟨false, false, false, true⟩
      sample_info).1).debug_messenger = none ∧
    (destroy (create sample_backend fresh ⟨["L"], []⟩ ⟨false, false, false, true⟩
      sample_info).1).physical_devices = [⟨11⟩, ⟨12⟩] := by
  decide

/-- C6, evaluated after a successful `create` that found the devices 11 and 12: the
first `destroy` leaves an instance with a null handle and two catalog entries, and the
second `destroy` changes it, emptying the catalog. -/
theorem destroy_twice_differs :
    (create sample_backend fresh ⟨["L"], []⟩ ⟨false, false, false, true⟩ sample_info).2.2
      = true ∧
    (destroy (create sample_backend fresh ⟨["L"], []⟩ ⟨false, false, false, true⟩
      sample_info).1).vk_instance = none ∧
    (destroy (destroy (create sample_backend fresh ⟨["L"], []⟩ ⟨false, false, false, true⟩
      sample_info).1)).physical_devices = [] ∧
    destroy (destroy (create sample_backend fresh ⟨["L"], []⟩ ⟨false, false, false, true⟩
      sample_info).1) ≠
    destroy (create sample_backend fresh ⟨["L"], []⟩ ⟨false, false, false, true⟩
      sample_info).1 := by
  decide

end Instance

/-! ## Augmentation of the requested layers and extensions -/

namespace Instance

theorem exists_in_iff (list : List name) (item : name) :
    exists_in list item = true ↔ item ∈ list := by
  simp [exists_in]

theorem exists_in_append_other (list : List name) (a item : name) (h : item ≠ a) :
    exists_in (list ++ [a]) item = exists_in list item := by
  simp [exists_in, h]

theorem validation_ne_render_doc :
    VK_LAYER_RENDERDOC_CAPTURE_NAME ≠ VK_LAYER_KHRONOS_VALIDATION_NAME := by
  decide

/-- The two lists that the augmentation of `check_debug` produces. -/
theorem augment_lists (debug : debug_config) (param : create_param) :
    (augment debug param).layers =
      param.layers ++
        (if debug.validation = true ∧ VK_LAYER_KHRONOS_VALIDATION_NAME ∉ param.layers
          then [VK_LAYER_KHRONOS_VALIDATION_NAME] else []) ++
        (if debug.render_doc = true ∧ VK_LAYER_RENDERDOC_CAPTURE_NAME ∉ param.layers
          then [VK_LAYER_RENDERDOC_CAPTURE_NAME] else []) ∧
    (augment debug param).extensions =
      param.extensions ++
        (if debug.utils = true ∧ VK_EXT_DEBUG_UTILS_EXTENSION_NAME ∉ param.extensions
          then [VK_EXT_DEBUG_UTILS_EXTENSION_NAME] else []) := by
  have hne := validation_ne_render_doc
  unfold augment
  cases h1 : debug.validation <;> cases h2 : debug.render_doc <;> cases h3 : debug.utils <;>
    by_cases m1 : VK_LAYER_KHRONOS_VALIDATION_NAME ∈ param.layers <;>
    by_cases m2 : VK_LAYER_RENDERDOC_CAPTURE_NAME ∈ param.layers <;>
    by_cases m3 : VK_EXT_DEBUG_UTILS_EXTENSION_NAME ∈ param.extensions <;>
    simp [exists_in, m1, m2, m3, hne]

theorem check_debug_param (b : backend) (i : Instance) (param : create_param) :
    (check_debug b i param).1 = augment i.debug param := by
  cases h : check b (augment i.debug param) <;> simp [check_debug, h]

/-- Augmenting a second time changes nothing. -/
theorem augment_idempotent (debug : debug_config) (param : create_param) :
    augment debug (augment debug param) = augment debug param := by
  have hne := validation_ne_render_doc
  unfold augment
  cases h1 : debug.validation <;> cases h2 : debug.render_doc <;> cases h3 : debug.utils <;>
    by_cases m1 : VK_LAYER_KHRONOS_VALIDATION_NAME ∈ param.layers <;>
    by_cases m2 : VK_LAYER_RENDERDOC_CAPTURE_NAME ∈ param.layers <;>
    by_cases m3 : VK_EXT_DEBUG_UTILS_EXTENSION_NAME ∈ param.extensions <;>
    simp [exists_in, m1, m2, m3, hne]

/-- C11: the augmentation step of `check_debug` has set-insert semantics. The layers it
leaves in `param` are the caller's layers, in order, followed by the validation layer
name when `validation` is set and the name was not among them, followed by the RenderDoc
capture layer name when `render_doc` is set and the name was not among them; the
extensions are the caller's extensions, in order, followed by the debug-utils extension
name when `utils` is set and the name was not among them; and `check_debug` applied to
its own result leaves both lists as they are. -/
theorem check_debug_set_insert (b : backend) (i : Instance) (param : create_param) :
    (check_debug b i param).1.layers =
      param.layers ++
        (if i.debug.validation = true ∧ VK_LAYER_KHRONOS_VALIDATION_NAME ∉ param.layers
          then [VK_LAYER_KHRONOS_VALIDATION_NAME] else []) ++
        (if i.debug.render_doc = true ∧ VK_LAYER_RENDERDOC_CAPTURE_NAME ∉ param.layers
          then [VK_LAYER_RENDERDOC_CAPTURE_NAME] else []) ∧
    (check_debug b i param).1.extensions =
      param.extensions ++
        (if i.debug.utils = true ∧ VK_EXT_DEBUG_UTILS_EXTENSION_NAME ∉ param.extensions
          then [VK_EXT_DEBUG_UTILS_EXTENSION_NAME] else []) ∧
    (check_debug b i (check_debug b i param).1).1 = (check_debug b i param).1 := by
  rw [check_debug_param, check_debug_param, augment_idempotent]
  exact ⟨(augment_lists i.debug param).1, (augment_lists i.debug param).2, rfl⟩

end Instance

/-! ## Enumeration of the physical devices -/

theorem buffer_length {α : Type} (e : enumeration α) (dflt : α) :
    (e.buffer dflt).length = e.count := by
  simp [enumeration.buffer]

/-- The buffer holds what the backend stored, cut at its size, and value-initialised
elements after that. -/
theorem buffer_eq {α : Type} (e : enumeration α) (dflt : α) :
    e.buffer dflt =
      e.written.take e.count ++ List.replicate (e.count - e.written.length) dflt := by
  unfold enumeration.buffer
  rw [List.take_append_eq_append_take, List.take_replicate]
  congr 2
  exact Nat.min_eq_left (Nat.sub_le _ _)

theorem buffer_full {α : Type} (e : enumeration α) (dflt : α)
    (h : e.written.length = e.count) : e.buffer dflt = e.written := by
  rw [buffer_eq, ← h]
  simp

namespace Instance

/-- C12 (as amended): `enumerate_physical_devices` returns true exactly when the count
query and the fill query both succeed. On success the catalog is replaced by one entry
per element of the buffer that was sized by the count query, so its size is the count
reported by the first call; when the fill query stores that many handles the catalog is
one entry per stored device, in order. On failure of either call the catalog is empty. -/
theorem enumerate_physical_devices_catalog (b : backend) (i : Instance) :
    ((enumerate_physical_devices b i).2 = true ↔
      (b.physical_devices i.vk_instance).count_ok = true ∧
      (b.physical_devices i.vk_instance).fill_ok = true) ∧
    ((enumerate_physical_devices b i).2 = true →
      (enumerate_physical_devices b i).1.physical_devices =
        ((b.physical_devices i.vk_instance).buffer 0).map physical_device.mk ∧
      (enumerate_physical_devices b i).1.physical_devices.length =
        (b.physical_devices i.vk_instance).count ∧
      ((b.physical_devices i.vk_instance).written.length =
          (b.physical_devices i.vk_instance).count →
        (enumerate_physical_devices b i).1.physical_devices =
          (b.physical_devices i.vk_instance).written.map physical_device.mk)) ∧
    ((enumerate_physical_devices b i).2 = false →
      (enumerate_physical_devices b i).1.physical_devices = []) := by
  cases h1 : (b.physical_devices i.vk_instance).count_ok with
  | false => simp [enumerate_physical_devices, h1]
  | true =>
    cases h2 : (b.physical_devices i.vk_instance).fill_ok with
    | false => simp [enumerate_physical_devices, h1, h2]
    | true =>
      simp only [enumerate_physical_devices, h1, h2, Bool.not_true, Bool.false_eq_true,
        if_false, and_self, true_iff, true_implies, List.length_map, buffer_length,
        false_implies, and_true, true_and]
      refine ⟨?_, fun hc => absurd hc (by decide)⟩
      intro hfull
      rw [buffer_full _ _ hfull]

/-- C12, as stated, fails: the count query reports two devices and the fill query then
stores one, device 11, and succeeds. `enumerate_physical_devices` returns true with a
catalog of two entries, the second set up from the null handle, while the backend has
reported one device. -/
theorem enumerate_physical_devices_count_changed :
    (enumerate_physical_devices
        { sample_backend with physical_devices := fun _ => ⟨true, 2, true, [11]⟩ }
        { fresh with vk_instance := some 7 }).2 = true ∧
    (enumerate_physical_devices
        { sample_backend with physical_devices := fun _ => ⟨true, 2, true, [11]⟩ }
        { fresh with vk_instance := some 7 }).1.physical_devices = [⟨11⟩, ⟨0⟩] ∧
    (({ sample_backend with physical_devices := fun _ => ⟨true, 2, true, [11]⟩ } :
        backend).physical_devices (some 7)).reported = 1 := by
  decide

end Instance

end lava
